import Mathlib

/-! hole-punch: rendezvous server and punch client.

A shallow embedding of `server.c` and `client.c` (UDP NAT hole punching).
Memory that the C code views through type-punned pointers is modelled as
octets; a host reads and writes multi-byte integers through its own byte
order, so every statement below holds for little- and big-endian hosts.
Kernel and libc answers (`sscanf`, `socket`, `recvfrom`, `sendto`, ...) are
inputs of the model.
-/

namespace HolePunch

/-! ## Octets and byte order -/

abbrev Byte := Fin 256

/-- Byte order of a host. -/
inductive Endian where
  | little
  | big
deriving DecidableEq

/-- Two octets of memory, lowest address first (a `uint16_t` object). -/
structure Octets2 where
  b0 : Byte
  b1 : Byte
deriving DecidableEq

/-- Four octets of memory, lowest address first (a `uint32_t` object). -/
structure Octets4 where
  b0 : Byte
  b1 : Byte
  b2 : Byte
  b3 : Byte
deriving DecidableEq

/-- The low eight bits of a number. -/
def byteOf (n : Nat) : Byte := ⟨n % 256, Nat.mod_lt n (by decide)⟩

/-- Value of a `uint16_t` object read by a host of byte order `e`. -/
def load16 (e : Endian) (o : Octets2) : Nat :=
  match e with
  | .little => o.b0.val + 256 * o.b1.val
  | .big => o.b1.val + 256 * o.b0.val

/-- Octets of a `uint16_t` object after a host of byte order `e` stores `v`. -/
def store16 (e : Endian) (v : Nat) : Octets2 :=
  match e with
  | .little => ⟨byteOf v, byteOf (v / 256)⟩
  | .big => ⟨byteOf (v / 256), byteOf v⟩

/-- Value of a `uint32_t` object read by a host of byte order `e`. -/
def load32 (e : Endian) (o : Octets4) : Nat :=
  match e with
  | .little => o.b0.val + 256 * o.b1.val + 65536 * o.b2.val + 16777216 * o.b3.val
  | .big => o.b3.val + 256 * o.b2.val + 65536 * o.b1.val + 16777216 * o.b0.val

/-- Octets of a `uint32_t` object after a host of byte order `e` stores `v`. -/
def store32 (e : Endian) (v : Nat) : Octets4 :=
  match e with
  | .little => ⟨byteOf v, byteOf (v / 256), byteOf (v / 65536), byteOf (v / 16777216)⟩
  | .big => ⟨byteOf (v / 16777216), byteOf (v / 65536), byteOf (v / 256), byteOf v⟩

/-- The libc `htonl` on a host of byte order `e`: the host value whose object
representation is the network-order (big-endian) encoding of `v`. -/
def htonl (e : Endian) (v : Nat) : Nat := load32 e (store32 .big v)

/-- The libc `ntohl` on a host of byte order `e`: the number whose network-order
encoding is the object representation of the host value `v`. -/
def ntohl (e : Endian) (v : Nat) : Nat := load32 .big (store32 e v)

def Octets2.zero : Octets2 := ⟨0, 0⟩

def Octets4.zero : Octets4 := ⟨0, 0, 0, 0⟩

def Octets2.bytes (o : Octets2) : List Byte := [o.b0, o.b1]

def Octets4.bytes (o : Octets4) : List Byte := [o.b0, o.b1, o.b2, o.b3]

/-- The constant `AF_INET`. -/
def AF_INET : Nat := 2

/-- A `struct sockaddr_in`: family, and port and address held in network byte
order, as octets. -/
structure SockAddrIn where
  sin_family : Nat
  sin_port : Octets2
  sin_addr : Octets4
deriving DecidableEq

/-- `sizeof(struct sockaddr_in)`. -/
def sizeofSockAddrIn : Nat := 16

/-- The kernel's `struct sockaddr_in` for IPv4 address `a` and port `p`. -/
def SockAddrIn.ofInet (a p : Nat) : SockAddrIn :=
  ⟨AF_INET, store16 .big p, store32 .big a⟩

/-- The IPv4 address (as a number) that a `struct sockaddr_in` names. -/
def SockAddrIn.inetAddr (s : SockAddrIn) : Nat := load32 .big s.sin_addr

/-- The port that a `struct sockaddr_in` names. -/
def SockAddrIn.inetPort (s : SockAddrIn) : Nat := load16 .big s.sin_port

/-- The six-octet buffer `buf` of both programs, which `last_addr` (offset 0,
`uint32_t`) and `last_port` (offset 4, `uint16_t`) point into. -/
structure RegBuf where
  addr : Octets4
  port : Octets2
deriving DecidableEq

/-- The buffer after `memset(buf, 0, sizeof(buf))`. -/
def RegBuf.zero : RegBuf := ⟨Octets4.zero, Octets2.zero⟩

/-- The six octets sent by `sendto(fd, buf, sizeof(buf), ...)`. -/
def RegBuf.bytes (b : RegBuf) : List Byte := b.addr.bytes ++ b.port.bytes

/-- The all-zero six-octet registration message. -/
def sentinel : List Byte := [0, 0, 0, 0, 0, 0]

/-- How the server stands: still in its loop, or returned from `main` with an
exit code. -/
inductive Status where
  | running
  | exited (code : Nat)
deriving DecidableEq

/-! ## server.c -/

/-- What the kernel answers in one iteration of the server loop: the return
value of `recvfrom`, the source it wrote to `next_data`, and the return value
of `sendto`. -/
structure ServerEvent where
  recvret : Int
  next_data : SockAddrIn
  sendret : Int
deriving DecidableEq

/-- A datagram handed to `sendto`: destination and payload. -/
structure Datagram where
  dest : SockAddrIn
  payload : List Byte
deriving DecidableEq

/-- State of the server loop (`server.c` lines 80-118): `buf`, `iter`, the
datagrams handed to `sendto` so far, and the status. -/
structure Server where
  buf : RegBuf
  iter : Nat
  replies : List Datagram
  status : Status
deriving DecidableEq

/-- State on entry to the loop: `memset(buf, 0, sizeof(buf))`, `iter = 0`. -/
def Server.init : Server := ⟨RegBuf.zero, 0, [], .running⟩

/-- One iteration of `for (uint32_t iter = 0; ; iter++)`, lines 89-118, on a
host of byte order `e`. -/
def serverBody (e : Endian) (s : Server) (ev : ServerEvent) : Server :=
  if ev.recvret < 0 then
    { s with status := .exited 3 }
  else
    let sent := s.replies ++ [Datagram.mk ev.next_data s.buf.bytes]
    if ev.sendret < 0 then
      { s with replies := sent, status := .exited 6 }
    else
      -- "if (iter %= 2)": the assignment happens, then its value is tested
      let iter1 := s.iter % 2
      let buf1 : RegBuf :=
        if iter1 ≠ 0 then RegBuf.zero
        else
          { addr := store32 e (load32 e ev.next_data.sin_addr)
            port := store16 e (load16 e ev.next_data.sin_port) }
      { buf := buf1, iter := (iter1 + 1) % 2 ^ 32, replies := sent, status := .running }

/-- The server loop over the kernel's answers, in order; it stops at the first
`return`. With the answers used up the server is blocked in `recvfrom`. -/
def serverLoop (e : Endian) : Server → List ServerEvent → Server
  | s, [] => s
  | s, ev :: evs =>
    match s.status with
    | .running => serverLoop e (serverBody e s ev) evs
    | _ => s

/-- Inputs of the server's `main`: `argc`, the result of
`sscanf(argv[1], "%d", &port)` and the value it stored, the results of
`socket` and `bind`, and the kernel's answers in the loop. -/
structure ServerInput where
  argc : Int
  scanRet : Int
  port : Int
  fd : Int
  bindret : Int
  events : List ServerEvent

/-- What a run of the server did: its status, how many times it called
`socket` and `bind`, and the datagrams it handed to `sendto`. -/
structure ServerOutcome where
  status : Status
  socketCalls : Nat
  bindCalls : Nat
  replies : List Datagram
deriving DecidableEq

/-- The server's `main`, lines 36-121. -/
def serverMain (e : Endian) (inp : ServerInput) : ServerOutcome :=
  if inp.argc ≠ 2 then ⟨.exited 1, 0, 0, []⟩
  else if inp.scanRet ≠ 1 then ⟨.exited 4, 0, 0, []⟩
  else if inp.port ≤ 0 then ⟨.exited 5, 0, 0, []⟩
  else if inp.port ≥ 65536 then ⟨.exited 6, 0, 0, []⟩
  else if inp.fd = -1 then ⟨.exited 2, 1, 0, []⟩
  else if inp.bindret < 0 then ⟨.exited 7, 1, 1, []⟩
  else
    let s := serverLoop e Server.init inp.events
    ⟨s.status, 1, 1, s.replies⟩

/-! ## client.c -/

/-- The `return` statements of the client's `main`, named by what failed;
`done` is the final `return 0`. -/
inductive Site where
  | usage          -- line 34
  | resolveAgain   -- line 47
  | resolveOther   -- line 50
  | addrSize       -- line 59
  | portParse      -- line 70
  | portLow        -- line 73
  | portHigh       -- line 76
  | passesParse    -- line 86
  | passesLow      -- line 89
  | socket         -- line 97
  | sendServer     -- line 113
  | recvServer     -- line 120
  | socketPeer     -- line 146
  | addrSpace      -- line 168
  | recvPeer       -- line 171
  | sizeMismatch   -- line 174
  | sendPeer       -- line 188
  | done           -- line 193
deriving DecidableEq

/-- The value each `return` statement of the client gives. -/
def Site.code : Site → Nat
  | .usage => 1
  | .resolveAgain => 2
  | .resolveOther => 2
  | .addrSize => 3
  | .portParse => 4
  | .portLow => 4
  | .portHigh => 4
  | .passesParse => 5
  | .passesLow => 5
  | .socket => 6
  | .sendServer => 7
  | .recvServer => 8
  | .socketPeer => 6
  | .addrSpace => 9
  | .recvPeer => 9
  | .sizeMismatch => 9
  | .sendPeer => 10
  | .done => 0

/-- How the client stands: in its loop, returned from `main` at a site, or
aborted by `assert(remote_set)`. -/
inductive ClientStatus where
  | running
  | returned (site : Site)
  | aborted
deriving DecidableEq

/-- What `recvfrom(..., MSG_TRUNC, ...)` answers: an error (`-1`), or a
datagram with its payload, its source and the address length the kernel
reports. -/
inductive RecvResult where
  | error
  | datagram (data : List Byte) (src : SockAddrIn) (srclen : Nat)
deriving DecidableEq

/-- The return value of `recvfrom` with `MSG_TRUNC`: the real length of the
datagram, also when it is longer than the buffer. -/
def RecvResult.ret : RecvResult → Int
  | .error => -1
  | .datagram data _ _ => data.length

/-- A zeroed four-octet buffer after `recvfrom` copied a payload into it. -/
def fill4 (data : List Byte) : Octets4 :=
  ⟨data.getD 0 0, data.getD 1 0, data.getD 2 0, data.getD 3 0⟩

/-- The zeroed six-octet `buf` after `recvfrom` copied a payload into it. -/
def fill6 (data : List Byte) : RegBuf :=
  ⟨fill4 data, ⟨data.getD 4 0, data.getD 5 0⟩⟩

/-- What the kernel answers in one round of the exchange loop: to the
`recvfrom` of a receive round, and to the `sendto` of a send round. -/
structure Answer where
  recv : RecvResult
  sendret : Int
deriving DecidableEq

/-- State of the client from line 128 on. `printed` are the numbers given to
`printf("Received ...")`, `sent` the datagrams handed to `sendto` in the loop,
`recvCalls` the calls of `recvfrom` in the loop, `rounds` the loop bodies
entered. -/
structure Client where
  remote : SockAddrIn
  remote_set : Bool
  iter : Nat
  real_passes : Nat
  printed : List Nat
  sent : List Datagram
  recvCalls : Nat
  rounds : Nat
  status : ClientStatus
deriving DecidableEq

/-- Lines 128-150: the role is read off the server's reply in `buf`. `junk` is
the indeterminate content of the uninitialised `remote`; `fd2` is what the
second `socket` call returns. -/
def selectRole (e : Endian) (buf : RegBuf) (real_passes : Nat) (junk : SockAddrIn)
    (fd2 : Int) : Client :=
  if load32 e buf.addr = 0 ∧ load16 e buf.port = 0 then
    { remote := junk, remote_set := false, iter := 0, real_passes := real_passes,
      printed := [], sent := [], recvCalls := 0, rounds := 0, status := .running }
  else
    let remote : SockAddrIn :=
      { sin_family := AF_INET
        sin_addr := store32 e (load32 e buf.addr)
        sin_port := store16 e (load16 e buf.port) }
    if fd2 = -1 then
      { remote := remote, remote_set := true, iter := 1, real_passes := real_passes,
        printed := [], sent := [], recvCalls := 0, rounds := 0,
        status := .returned .socketPeer }
    else
      { remote := remote, remote_set := true, iter := 1,
        real_passes := (real_passes + 1) % 2 ^ 32,
        printed := [], sent := [], recvCalls := 0, rounds := 0, status := .running }

/-- The test `iter < real_passes` of the loop at line 152; when it fails the
client reaches `return 0`. -/
def loopTest (c : Client) : Client :=
  match c.status with
  | .running => if c.iter < c.real_passes then c else { c with status := .returned .done }
  | _ => c

/-- The four octets of a `pass_buf` that holds `htonl(n)`. -/
def encodeCounter (e : Endian) (n : Nat) : List Byte := (store32 e (htonl e n)).bytes

/-- The four octets a send round puts on the wire: the object representation
of `htonl((uint32_t) iter / 2)`. -/
def counterMessage (e : Endian) (iter : Nat) : List Byte := encodeCounter e (iter / 2)

/-- One round of the exchange loop, lines 153-190, and the `iter++` after it. -/
def loopBody (e : Endian) (c : Client) (k : Answer) : Client :=
  let c := { c with rounds := c.rounds + 1 }
  if c.iter % 2 = 0 then
    let pass_buf : Octets4 :=
      match k.recv with
      | .error => Octets4.zero
      | .datagram data _ _ => fill4 data
    -- recvfrom gets NULL for both address arguments once remote_set
    let len : Nat :=
      if c.remote_set then sizeofSockAddrIn
      else
        match k.recv with
        | .error => sizeofSockAddrIn
        | .datagram _ _ srclen => srclen
    let remote : SockAddrIn :=
      if c.remote_set then c.remote
      else
        match k.recv with
        | .error => c.remote
        | .datagram _ src _ => src
    let c1 := { c with remote := remote, recvCalls := c.recvCalls + 1 }
    if sizeofSockAddrIn < len then { c1 with status := .returned .addrSpace }
    else if k.recv.ret < 0 then { c1 with status := .returned .recvPeer }
    else if k.recv.ret ≠ 4 then { c1 with status := .returned .sizeMismatch }
    else
      { c1 with
        remote_set := true
        printed := c.printed ++ [ntohl e (load32 e pass_buf)]
        iter := (c.iter + 1) % 2 ^ 32 }
  else
    if c.remote_set = false then { c with status := .aborted }
    else
      let c1 := { c with sent := c.sent ++ [Datagram.mk c.remote (counterMessage e c.iter)] }
      if k.sendret < 0 then { c1 with status := .returned .sendPeer }
      else { c1 with iter := (c.iter + 1) % 2 ^ 32 }

/-- The exchange loop over the kernel's answers, one per round, in order. It
stops at the first `return` or abort; with the answers used up and the loop
test still true the client is blocked in its next call. -/
def clientLoop (e : Endian) : Client → List Answer → Client
  | c, [] => loopTest c
  | c, k :: ks =>
    match (loopTest c).status with
    | .running => clientLoop e (loopBody e c k) ks
    | _ => loopTest c

/-- Inputs of the client's `main`: `argc`; the result of `getaddrinfo` and
the length of the address it found; the results of the two `sscanf` calls and
the values they stored (C `int`s); the results of `socket`, of the `sendto`
to the server and of the `recvfrom` for its reply; the indeterminate content
of `remote`; the result of the second `socket`; the kernel's answers in the
exchange loop. -/
structure ClientInput where
  argc : Int
  gaiRet : Int
  ai_addrlen : Nat
  portRet : Int
  port : Int
  passesRet : Int
  passes : Int
  fd : Int
  sendret : Int
  reply : RecvResult
  junk : SockAddrIn
  fd2 : Int
  answers : List Answer

/-- The constant `EAI_AGAIN` of glibc. -/
def EAI_AGAIN : Int := -3

/-- Line 91: `real_passes = 2 * ((uint32_t) passes)`. -/
def doublePasses (passes : Int) : Nat := (2 * (passes % 2 ^ 32).toNat) % 2 ^ 32

/-- The zeroed `buf` after the `recvfrom` at line 117: what the reply put into
it, whatever the reply's length. -/
def replyBuf (reply : RecvResult) : RegBuf :=
  match reply with
  | .error => RegBuf.zero
  | .datagram data _ _ => fill6 data

/-- A client that returned before the exchange loop. -/
def Client.early (junk : SockAddrIn) (site : Site) : Client :=
  { remote := junk, remote_set := false, iter := 0, real_passes := 0,
    printed := [], sent := [], recvCalls := 0, rounds := 0, status := .returned site }

/-- The client's `main`, lines 31-194. -/
def clientMain (e : Endian) (inp : ClientInput) : Client :=
  if inp.argc ≠ 4 then Client.early inp.junk .usage
  else if inp.gaiRet = EAI_AGAIN then Client.early inp.junk .resolveAgain
  else if inp.gaiRet ≠ 0 then Client.early inp.junk .resolveOther
  else if sizeofSockAddrIn < inp.ai_addrlen then Client.early inp.junk .addrSize
  else if inp.portRet ≠ 1 then Client.early inp.junk .portParse
  else if inp.port ≤ 0 then Client.early inp.junk .portLow
  else if inp.port ≥ 65536 then Client.early inp.junk .portHigh
  else if inp.passesRet ≠ 1 then Client.early inp.junk .passesParse
  else if inp.passes ≤ 0 then Client.early inp.junk .passesLow
  else if inp.fd = -1 then Client.early inp.junk .socket
  else if inp.sendret < 0 then Client.early inp.junk .sendServer
  else if inp.reply.ret < 0 then Client.early inp.junk .recvServer
  else
    clientLoop e (selectRole e (replyBuf inp.reply) (doublePasses inp.passes) inp.junk inp.fd2)
      inp.answers

/-! ## Two clients over a lossless in-order channel -/

/-- A Listener and an Initiator with the datagrams in flight in each
direction, oldest first. -/
structure Pair where
  listener : Client
  initiator : Client
  toListener : List (List Byte)
  toInitiator : List (List Byte)
deriving DecidableEq

/-- The payloads among `ds` that are addressed to the endpoint `peer`. -/
def delivered (peer : SockAddrIn) (ds : List Datagram) : List (List Byte) :=
  (ds.filter fun d =>
    d.dest.sin_addr = peer.sin_addr ∧ d.dest.sin_port = peer.sin_port).map Datagram.payload

/-- One move of a client whose peer is the endpoint `peer`: the loop test
and, if it holds, one round. A receive round takes the oldest datagram in
flight and no I/O call fails. The result is the client, what is left in
flight towards it, and what it put in flight towards its peer; `none` when the
client cannot move (it is blocked in `recvfrom`, or its process has ended). -/
def clientMove (e : Endian) (peer : SockAddrIn) (c : Client) (inbox : List (List Byte)) :
    Option (Client × List (List Byte) × List (List Byte)) :=
  match c.status with
  | .running =>
    match (loopTest c).status with
    | .running =>
      if c.iter % 2 = 0 then
        match inbox with
        | [] => none
        | data :: rest =>
          some (loopBody e c ⟨.datagram data peer sizeofSockAddrIn, 4⟩, rest, [])
      else
        let c1 := loopBody e c ⟨.error, 4⟩
        some (c1, inbox, delivered peer (c1.sent.drop c.sent.length))
    | _ => some (loopTest c, inbox, [])
  | _ => none

/-- The Listener moves, if it can; `addrI` is the Initiator's endpoint. -/
def moveListener (eL : Endian) (addrI : SockAddrIn) (p : Pair) : Option Pair :=
  match clientMove eL addrI p.listener p.toListener with
  | some (c, inbox, out) =>
    some { p with listener := c, toListener := inbox, toInitiator := p.toInitiator ++ out }
  | none => none

/-- The Initiator moves, if it can; `addrL` is the Listener's endpoint. -/
def moveInitiator (eI : Endian) (addrL : SockAddrIn) (p : Pair) : Option Pair :=
  match clientMove eI addrL p.initiator p.toInitiator with
  | some (c, inbox, out) =>
    some { p with initiator := c, toInitiator := inbox, toListener := p.toListener ++ out }
  | none => none

/-- One step of the pair. The scheduler prefers the Listener when `pref` is
true and the Initiator otherwise; the other client moves when the preferred
one cannot; the pair stays as it is when neither can. -/
def pairStep (eL eI : Endian) (addrL addrI : SockAddrIn) (pref : Bool) (p : Pair) : Pair :=
  match pref, moveListener eL addrI p, moveInitiator eI addrL p with
  | true, some q, _ => q
  | true, none, some q => q
  | false, _, some q => q
  | false, some q, none => q
  | _, none, none => p

/-- The pair after the steps of a schedule. -/
def pairRun (eL eI : Endian) (addrL addrI : SockAddrIn) : List Bool → Pair → Pair
  | [], p => p
  | pref :: rest, p => pairRun eL eI addrL addrI rest (pairStep eL eI addrL addrI pref p)

/-- The pair as the exchange starts: the first client got the sentinel from
the server, the second got the first one's endpoint `addrL`; both were started
with the same `passes`. -/
def pairInit (eL eI : Endian) (addrL junkL junkI : SockAddrIn) (fd2 : Int) (passes : Int) :
    Pair :=
  { listener := selectRole eL (fill6 sentinel) (doublePasses passes) junkL fd2
    initiator :=
      selectRole eI (fill6 (RegBuf.mk addrL.sin_addr addrL.sin_port).bytes)
        (doublePasses passes) junkI fd2
    toListener := []
    toInitiator := [] }

/-! ## The states a pair of clients goes through -/

/-- The four octets of a counter message that carries `i`. -/
def wireCounter (i : Nat) : List Byte := (store32 .big i).bytes

/-- The Listener with loop index `a`, after it was started with
`real_passes = rp` and uninitialised `remote = junk`, against a peer at
`addrI`. -/
def listenerAt (rp : Nat) (junk addrI : SockAddrIn) (a : Nat) (st : ClientStatus) : Client :=
  { remote := if a = 0 then junk else addrI
    remote_set := decide (a ≠ 0)
    iter := a
    real_passes := rp
    printed := List.range ((a + 1) / 2)
    sent := (List.range (a / 2)).map fun i => Datagram.mk addrI (wireCounter i)
    recvCalls := (a + 1) / 2
    rounds := a
    status := st }

/-- The Initiator with loop index `b`, after it was started with
`real_passes = rp + 1` and the peer address `peer` from the server. -/
def initiatorAt (rp : Nat) (peer : SockAddrIn) (b : Nat) (st : ClientStatus) : Client :=
  { remote := peer
    remote_set := true
    iter := b
    real_passes := rp + 1
    printed := List.range ((b - 1) / 2)
    sent := (List.range (b / 2)).map fun i => Datagram.mk peer (wireCounter i)
    recvCalls := (b - 1) / 2
    rounds := b - 1
    status := st }

/-- Where a pair stands: the loop indices of the Listener (`a`) and of the
Initiator (`b`), and whether each is still running. -/
structure Progress where
  a : Nat
  runL : Bool
  b : Nat
  runI : Bool
deriving DecidableEq

/-- Status of a client that is running, or has returned 0. -/
def statusOf (run : Bool) : ClientStatus := if run then .running else .returned .done

/-- The pair at a given progress: the datagrams in flight are the ones sent
and not yet received. -/
def pairAt (rp : Nat) (junk addrI peer : SockAddrIn) (x : Progress) : Pair :=
  { listener := listenerAt rp junk addrI x.a (statusOf x.runL)
    initiator := initiatorAt rp peer x.b (statusOf x.runI)
    toListener := (List.range' ((x.a + 1) / 2) (x.b / 2 - (x.a + 1) / 2)).map wireCounter
    toInitiator := (List.range' ((x.b - 1) / 2) (x.a / 2 - (x.b - 1) / 2)).map wireCounter }

/-- The progress of a pair is consistent: indices within their bounds, nothing
received that was not sent, and a client that has returned is at its bound. -/
def Progress.Consistent (rp : Nat) (x : Progress) : Prop :=
  x.a ≤ rp ∧ 1 ≤ x.b ∧ x.b ≤ rp + 1 ∧ (x.a + 1) / 2 ≤ x.b / 2 ∧ (x.b - 1) / 2 ≤ x.a / 2 ∧
    (x.runL = false → x.a = rp) ∧ (x.runI = false → x.b = rp + 1)

/-- The number of steps a pair still has to make. -/
def Progress.left (rp : Nat) (x : Progress) : Nat :=
  (rp - x.a) + (rp + 1 - x.b) + (if x.runL then 1 else 0) + (if x.runI then 1 else 0)

/-! ## The pairing the server is meant to perform -/

/-- The replies of a server that pairs arrivals two by two: with nobody
pending an arrival is told the sentinel and becomes pending; with `w` pending
an arrival is told the address and port of `w`, and nobody is pending. -/
def pairedReplies : Option SockAddrIn → List SockAddrIn → List Datagram
  | _, [] => []
  | none, a :: rest => Datagram.mk a sentinel :: pairedReplies (some a) rest
  | some w, b :: rest =>
    Datagram.mk b (w.sin_addr.bytes ++ w.sin_port.bytes) :: pairedReplies none rest

/-- Who is pending after a list of arrivals. -/
def pendingAfter : Option SockAddrIn → List SockAddrIn → Option SockAddrIn
  | w, [] => w
  | none, a :: rest => pendingAfter (some a) rest
  | some _, _ :: rest => pendingAfter none rest

/-- The server state `s` holds the pending peer `w`. -/
def Holds (s : Server) : Option SockAddrIn → Prop
  | none => s.status = .running ∧ s.iter % 2 = 0 ∧ s.buf = RegBuf.zero
  | some a => s.status = .running ∧ s.iter % 2 = 1 ∧ s.buf = ⟨a.sin_addr, a.sin_port⟩

/-! ## Runs without failures, and failure classes -/

/-- In this answer no I/O call fails: `sendto` succeeds, and `recvfrom` gives a
datagram of four octets whose source address fits `remote`, as the address of
an IPv4 socket does. -/
def Answer.ok (k : Answer) : Bool :=
  decide (0 ≤ k.sendret) &&
    match k.recv with
    | .error => false
    | .datagram data _ srclen => decide (data.length = 4) && decide (srclen ≤ sizeofSockAddrIn)

/-- The arguments are valid (`passes` is a positive C `int`) and no call
before the exchange loop fails. -/
def ClientInput.valid (inp : ClientInput) : Bool :=
  decide (inp.argc = 4) && decide (inp.gaiRet = 0) &&
    decide (inp.ai_addrlen ≤ sizeofSockAddrIn) &&
    decide (inp.portRet = 1) && decide (0 < inp.port) && decide (inp.port < 65536) &&
    decide (inp.passesRet = 1) && decide (0 < inp.passes) && decide (inp.passes < 2 ^ 31) &&
    decide (inp.fd ≠ -1) && decide (0 ≤ inp.sendret) && decide (0 ≤ inp.reply.ret) &&
    decide (inp.fd2 ≠ -1)

/-- The failure classes of the client. -/
inductive FailClass where
  | usage
  | resolution
  | parse
  | socket
  | sendRecv
  | protocolSize
deriving DecidableEq

/-- The failure class of each `return` statement of the client; the final
`return 0` has none. -/
def Site.cls : Site → Option FailClass
  | .usage => some .usage
  | .resolveAgain => some .resolution
  | .resolveOther => some .resolution
  | .addrSize => some .resolution
  | .portParse => some .parse
  | .portLow => some .parse
  | .portHigh => some .parse
  | .passesParse => some .parse
  | .passesLow => some .parse
  | .socket => some .socket
  | .sendServer => some .sendRecv
  | .recvServer => some .sendRecv
  | .socketPeer => some .socket
  | .addrSpace => some .sendRecv
  | .recvPeer => some .sendRecv
  | .sizeMismatch => some .protocolSize
  | .sendPeer => some .sendRecv
  | .done => none

/-- The run ended in a failure of class `cls` with exit code `code`: the client
returned at a site of that class whose `return` gives that code. -/
def Client.failed (c : Client) (code : Nat) (cls : FailClass) : Prop :=
  ∃ site, c.status = .returned site ∧ site.code = code ∧ site.cls = some cls

/-- Before a send round the peer is known: a running client has `remote_set`
or is about to receive. -/
def PeerKnown (c : Client) : Prop :=
  c.status ≠ .aborted ∧ (c.status = .running → c.remote_set = true ∨ c.iter % 2 = 0)

/-- The client knows its peer to be `a` and has sent to nobody else. -/
def PeerIs (a : SockAddrIn) (c : Client) : Prop :=
  c.remote_set = true ∧ c.remote = a ∧ ∀ d ∈ c.sent, d.dest = a

/-! ## Octets: reading back what was stored -/

theorem store32_load32 (e : Endian) (o : Octets4) : store32 e (load32 e o) = o := by
  obtain ⟨⟨a, ha⟩, ⟨b, hb⟩, ⟨c, hc⟩, ⟨d, hd⟩⟩ := o
  cases e <;> simp only [store32, load32, byteOf, Octets4.mk.injEq, Fin.mk.injEq] <;>
    refine ⟨?_, ?_, ?_, ?_⟩ <;> omega

theorem store16_load16 (e : Endian) (o : Octets2) : store16 e (load16 e o) = o := by
  obtain ⟨⟨a, ha⟩, ⟨b, hb⟩⟩ := o
  cases e <;> simp only [store16, load16, byteOf, Octets2.mk.injEq, Fin.mk.injEq] <;>
    refine ⟨?_, ?_⟩ <;> omega

theorem load32_store32 (e : Endian) (v : Nat) (h : v < 2 ^ 32) :
    load32 e (store32 e v) = v := by
  cases e <;> simp only [store32, load32, byteOf] <;> omega

theorem load16_store16 (e : Endian) (v : Nat) (h : v < 2 ^ 16) :
    load16 e (store16 e v) = v := by
  cases e <;> simp only [store16, load16, byteOf] <;> omega

theorem load32_eq_zero (e : Endian) (o : Octets4) : load32 e o = 0 ↔ o = Octets4.zero := by
  obtain ⟨⟨a, ha⟩, ⟨b, hb⟩, ⟨c, hc⟩, ⟨d, hd⟩⟩ := o
  cases e <;> simp only [load32, Octets4.zero, Octets4.mk.injEq, Fin.ext_iff, Fin.val_zero] <;>
    omega

theorem load16_eq_zero (e : Endian) (o : Octets2) : load16 e o = 0 ↔ o = Octets2.zero := by
  obtain ⟨⟨a, ha⟩, ⟨b, hb⟩⟩ := o
  cases e <;> simp only [load16, Octets2.zero, Octets2.mk.injEq, Fin.ext_iff, Fin.val_zero] <;>
    omega

theorem fill4_bytes (o : Octets4) : fill4 o.bytes = o := rfl

theorem fill6_bytes (b : RegBuf) : fill6 b.bytes = b := rfl

theorem store32_htonl (e : Endian) (n : Nat) : store32 e (htonl e n) = store32 .big n := by
  unfold htonl
  exact store32_load32 e _

theorem ntohl_load32 (e : Endian) (o : Octets4) : ntohl e (load32 e o) = load32 .big o := by
  unfold ntohl
  rw [store32_load32]

theorem decode_encodeCounter (eA eB : Endian) (n : Nat) (h : n < 2 ^ 32) :
    ntohl eB (load32 eB (fill4 (encodeCounter eA n))) = n := by
  rw [encodeCounter, fill4_bytes, ntohl_load32, store32_htonl, load32_store32 _ _ h]

/-! ## The server loop pairs arrivals -/

theorem serverBody_ok (e : Endian) (s : Server) (ev : ServerEvent)
    (hr : 0 ≤ ev.recvret) (hs : 0 ≤ ev.sendret) :
    serverBody e s ev =
      { buf := if s.iter % 2 ≠ 0 then RegBuf.zero
               else ⟨ev.next_data.sin_addr, ev.next_data.sin_port⟩
        iter := (s.iter % 2 + 1) % 2 ^ 32
        replies := s.replies ++ [Datagram.mk ev.next_data s.buf.bytes]
        status := .running } := by
  simp only [serverBody, not_lt.mpr hr, not_lt.mpr hs, if_false, store32_load32,
    store16_load16]

theorem serverBody_holds (e : Endian) (s : Server) (ev : ServerEvent) (w : Option SockAddrIn)
    (hr : 0 ≤ ev.recvret) (hs : 0 ≤ ev.sendret) (hw : Holds s w) :
    Holds (serverBody e s ev) (pendingAfter w [ev.next_data]) ∧
      (serverBody e s ev).replies = s.replies ++ pairedReplies w [ev.next_data] := by
  rw [serverBody_ok e s ev hr hs]
  cases w with
  | none =>
    obtain ⟨-, hi, hb⟩ := hw
    simp [Holds, pendingAfter, pairedReplies, hi, hb, RegBuf.bytes, RegBuf.zero, Octets4.bytes,
      Octets2.bytes, Octets4.zero, Octets2.zero, sentinel]
  | some a =>
    obtain ⟨-, hi, hb⟩ := hw
    simp [Holds, pendingAfter, pairedReplies, hi, hb, RegBuf.bytes]

theorem pendingAfter_cons (w : Option SockAddrIn) (a : SockAddrIn) (rest : List SockAddrIn) :
    pendingAfter w (a :: rest) = pendingAfter (pendingAfter w [a]) rest := by
  cases w <;> simp [pendingAfter]

theorem pairedReplies_cons (w : Option SockAddrIn) (a : SockAddrIn) (rest : List SockAddrIn) :
    pairedReplies w (a :: rest) =
      pairedReplies w [a] ++ pairedReplies (pendingAfter w [a]) rest := by
  cases w <;> simp [pairedReplies, pendingAfter]

theorem serverLoop_refines (e : Endian) (evs : List ServerEvent) :
    ∀ (s : Server) (w : Option SockAddrIn),
      (∀ ev ∈ evs, 0 ≤ ev.recvret ∧ 0 ≤ ev.sendret) → Holds s w →
      Holds (serverLoop e s evs) (pendingAfter w (evs.map ServerEvent.next_data)) ∧
        (serverLoop e s evs).replies =
          s.replies ++ pairedReplies w (evs.map ServerEvent.next_data) := by
  induction evs with
  | nil =>
    intro s w _ hw
    cases w <;> simpa [serverLoop, pendingAfter, pairedReplies] using hw
  | cons ev evs ih =>
    intro s w hok hw
    have hrun : s.status = .running := by cases w <;> exact hw.1
    have h0 := hok ev (List.mem_cons_self _ _)
    obtain ⟨h1, h2⟩ := serverBody_holds e s ev w h0.1 h0.2 hw
    obtain ⟨h3, h4⟩ := ih (serverBody e s ev) _ (fun x hx => hok x (List.mem_cons_of_mem _ hx)) h1
    simp only [serverLoop, hrun, List.map_cons]
    rw [pendingAfter_cons, pairedReplies_cons]
    refine ⟨h3, ?_⟩
    rw [h4, h2, List.append_assoc]

theorem pendingAfter_even (k : Nat) :
    ∀ l : List SockAddrIn, l.length = 2 * k → pendingAfter none l = none := by
  induction k with
  | zero =>
    intro l hl
    have : l = [] := List.length_eq_zero.mp (by simpa using hl)
    subst this
    rfl
  | succ k ih =>
    intro l hl
    match l, hl with
    | a :: b :: rest, hl =>
      simp only [pendingAfter]
      exact ih rest (by simp only [List.length_cons] at hl; omega)

theorem pairedReplies_even (k : Nat) :
    ∀ (l : List SockAddrIn) (a : SockAddrIn), l[2 * k]? = some a →
      (pairedReplies none l)[2 * k]? = some (Datagram.mk a sentinel) := by
  induction k with
  | zero =>
    intro l a h
    match l, h with
    | x :: rest, h =>
      simp only [Nat.mul_zero, List.getElem?_cons_zero, Option.some.injEq] at h
      subst h
      simp [pairedReplies]
  | succ k ih =>
    intro l a h
    match l, h with
    | [x], h => simp [Nat.mul_succ] at h
    | x :: y :: rest, h =>
      have e2 : 2 * (k + 1) = 2 * k + 1 + 1 := by omega
      rw [e2] at h ⊢
      simp only [List.getElem?_cons_succ] at h
      simp only [pairedReplies, List.getElem?_cons_succ]
      exact ih rest a h

theorem pairedReplies_odd (k : Nat) :
    ∀ (l : List SockAddrIn) (a b : SockAddrIn), l[2 * k]? = some a → l[2 * k + 1]? = some b →
      (pairedReplies none l)[2 * k + 1]? =
        some (Datagram.mk b (a.sin_addr.bytes ++ a.sin_port.bytes)) := by
  induction k with
  | zero =>
    intro l a b h h1
    match l, h, h1 with
    | x :: y :: rest, h, h1 =>
      simp only [Nat.mul_zero, List.getElem?_cons_zero, Option.some.injEq, Nat.zero_add,
        List.getElem?_cons_succ] at h h1
      subst h h1
      simp [pairedReplies]
  | succ k ih =>
    intro l a b h h1
    match l, h, h1 with
    | [x], h, _ => simp [Nat.mul_succ] at h
    | x :: y :: rest, h, h1 =>
      have e2 : 2 * (k + 1) = 2 * k + 1 + 1 := by omega
      rw [e2] at h h1 ⊢
      simp only [List.getElem?_cons_succ] at h h1
      simp only [pairedReplies, List.getElem?_cons_succ]
      exact ih rest a b h h1

/-- C1: from its initial state (buffer zeroed, `iter = 0`) the server loop,
over registrations of any number and from any sources, answers the registration
at position `2k` with the all-zero sentinel, holds the sentinel in its buffer
after `2k` registrations, and answers the registration at position `2k+1` with
exactly the address and port octets observed for the registration at position
`2k`. -/
theorem server_pairs_arrivals (e : Endian) (evs : List ServerEvent)
    (hok : ∀ ev ∈ evs, 0 ≤ ev.recvret ∧ 0 ≤ ev.sendret) (k : Nat) :
    (∀ a, evs[2 * k]? = some a →
        (serverLoop e Server.init evs).replies[2 * k]? =
          some (Datagram.mk a.next_data sentinel)) ∧
      (2 * k ≤ evs.length →
        (serverLoop e Server.init (evs.take (2 * k))).buf.bytes = sentinel) ∧
      (∀ a b, evs[2 * k]? = some a → evs[2 * k + 1]? = some b →
        (serverLoop e Server.init evs).replies[2 * k + 1]? =
          some (Datagram.mk b.next_data
            (a.next_data.sin_addr.bytes ++ a.next_data.sin_port.bytes))) := by
  have hinit : Holds Server.init none := ⟨rfl, rfl, rfl⟩
  have hrep := (serverLoop_refines e evs Server.init none hok hinit).2
  rw [show Server.init.replies = [] from rfl, List.nil_append] at hrep
  refine ⟨?_, ?_, ?_⟩
  · intro a ha
    rw [hrep]
    exact pairedReplies_even k _ a.next_data (by simp [List.getElem?_map, ha])
  · intro hk
    have hok2 : ∀ ev ∈ evs.take (2 * k), 0 ≤ ev.recvret ∧ 0 ≤ ev.sendret :=
      fun ev hev => hok ev (List.mem_of_mem_take hev)
    have h := (serverLoop_refines e (evs.take (2 * k)) Server.init none hok2 hinit).1
    rw [pendingAfter_even k _ (by simp [List.length_take, hk])] at h
    rw [h.2.2]
    rfl
  · intro a b ha hb
    rw [hrep]
    exact pairedReplies_odd k _ a.next_data b.next_data (by simp [List.getElem?_map, ha])
      (by simp [List.getElem?_map, hb])

/-- Witness for C1: four registrations; the fourth is told the third's
address and port, and the buffer is the sentinel after two registrations. -/
theorem server_pairs_arrivals_witness :
    (serverLoop .little Server.init
        [⟨0, SockAddrIn.ofInet 167772161 5000, 6⟩, ⟨6, SockAddrIn.ofInet 167772162 6000, 6⟩,
          ⟨0, SockAddrIn.ofInet 3232235777 40000, 6⟩,
          ⟨0, SockAddrIn.ofInet 3232235778 40001, 6⟩]).replies[3]? =
        some (Datagram.mk (SockAddrIn.ofInet 3232235778 40001) [192, 168, 1, 1, 156, 64]) ∧
      (serverLoop .little Server.init
        ([⟨0, SockAddrIn.ofInet 167772161 5000, 6⟩, ⟨6, SockAddrIn.ofInet 167772162 6000, 6⟩,
          ⟨0, SockAddrIn.ofInet 3232235777 40000, 6⟩,
          ⟨0, SockAddrIn.ofInet 3232235778 40001, 6⟩].take (2 * 1))).buf.bytes = sentinel :=
  have h := server_pairs_arrivals .little
    [⟨0, SockAddrIn.ofInet 167772161 5000, 6⟩, ⟨6, SockAddrIn.ofInet 167772162 6000, 6⟩,
      ⟨0, SockAddrIn.ofInet 3232235777 40000, 6⟩,
      ⟨0, SockAddrIn.ofInet 3232235778 40001, 6⟩] (by decide) 1
  ⟨h.2.2 _ _ rfl rfl, h.2.1 (by decide)⟩

/-- C9 as amended: with a port argument that `sscanf` cannot parse the server
exits with code 4, having called neither `socket` nor `bind` and sent
nothing. -/
theorem server_unparsed_port_exits_4 (e : Endian) (inp : ServerInput)
    (hargc : inp.argc = 2) (hscan : inp.scanRet ≠ 1) :
    serverMain e inp = ⟨.exited 4, 0, 0, []⟩ := by
  simp [serverMain, hargc, hscan]

/-- Witness for C9 as amended: `server abc`, where `sscanf` returns 0. -/
theorem server_unparsed_port_exits_4_witness :
    serverMain .little ⟨2, 0, 0, 3, 0, []⟩ = ⟨.exited 4, 0, 0, []⟩ :=
  server_unparsed_port_exits_4 .little ⟨2, 0, 0, 3, 0, []⟩ (by decide) (by decide)

/-- Counterexample to C9 as stated: for `server abc` (`sscanf` returns 0) the
exit code is 4, not the usage code 1. -/
theorem server_unparsed_port_not_usage_code :
    (serverMain .little ⟨2, 0, 0, 3, 0, []⟩).status = .exited 4 ∧
      (serverMain .little ⟨2, 0, 0, 3, 0, []⟩).status ≠ .exited 1 := by
  decide

/-- C5: on hosts of any byte order, `ntohl` of the four octets that carry
`htonl(n)` is `n` for every 32-bit `n`; and for every IPv4 address `a` and port
`p` the six octets the client gets are the address and port octets the server
stored, the client reads zero exactly for the zero address or port, and the
address and port it copies into `remote` are `a` and `p`. -/
theorem wire_round_trip (eS eC : Endian) (n a p : Nat)
    (hn : n < 2 ^ 32) (ha : a < 2 ^ 32) (hp : p < 2 ^ 16) :
    ntohl eC (load32 eC (fill4 (encodeCounter eS n))) = n ∧
      (let stored := (serverBody eS Server.init ⟨0, SockAddrIn.ofInet a p, 6⟩).buf
       let got := fill6 stored.bytes
       got = ⟨(SockAddrIn.ofInet a p).sin_addr, (SockAddrIn.ofInet a p).sin_port⟩ ∧
         (load32 eC got.addr = 0 ↔ a = 0) ∧ (load16 eC got.port = 0 ↔ p = 0) ∧
         SockAddrIn.inetAddr ⟨AF_INET, store16 eC (load16 eC got.port),
           store32 eC (load32 eC got.addr)⟩ = a ∧
         SockAddrIn.inetPort ⟨AF_INET, store16 eC (load16 eC got.port),
           store32 eC (load32 eC got.addr)⟩ = p) := by
  refine ⟨decode_encodeCounter eS eC n hn, ?_⟩
  have hb : (serverBody eS Server.init ⟨0, SockAddrIn.ofInet a p, 6⟩).buf =
      ⟨(SockAddrIn.ofInet a p).sin_addr, (SockAddrIn.ofInet a p).sin_port⟩ := by
    rw [serverBody_ok eS _ _ (le_refl 0) (by simp)]
    rfl
  simp only [hb, fill6_bytes, store32_load32, store16_load16, true_and]
  simp only [SockAddrIn.inetAddr, SockAddrIn.inetPort, SockAddrIn.ofInet,
    load32_store32 _ _ ha, load16_store16 _ _ hp, and_true]
  constructor
  · rw [load32_eq_zero, ← load32_eq_zero .big, load32_store32 _ _ ha]
  · rw [load16_eq_zero, ← load16_eq_zero .big, load16_store16 _ _ hp]

/-- Witness for C5: the largest round number, address and port, between a
little-endian server and a big-endian client. -/
theorem wire_round_trip_witness :
    ntohl .big (load32 .big (fill4 (encodeCounter .little 4294967295))) = 4294967295 ∧
      SockAddrIn.inetAddr ⟨AF_INET, store16 .big (load16 .big (fill6
        (serverBody .little Server.init
          ⟨0, SockAddrIn.ofInet 4294967295 65535, 6⟩).buf.bytes).port),
        store32 .big (load32 .big (fill6 (serverBody .little Server.init
          ⟨0, SockAddrIn.ofInet 4294967295 65535, 6⟩).buf.bytes).addr)⟩ = 4294967295 :=
  have h := wire_round_trip .little .big 4294967295 4294967295 65535 (by decide) (by decide)
    (by decide)
  ⟨h.1, h.2.2.2.2.1⟩

/-! ## One round of the client -/

theorem loopBody_recv (e : Endian) (c : Client) (data : List Byte) (src : SockAddrIn)
    (srclen : Nat) (sendret : Int) (heven : c.iter % 2 = 0) (hlen : data.length = 4)
    (hfit : c.remote_set = true ∨ srclen ≤ sizeofSockAddrIn) :
    loopBody e c ⟨.datagram data src srclen, sendret⟩ =
      { c with
        rounds := c.rounds + 1
        remote := if c.remote_set then c.remote else src
        recvCalls := c.recvCalls + 1
        remote_set := true
        printed := c.printed ++ [load32 .big (fill4 data)]
        iter := (c.iter + 1) % 2 ^ 32 } := by
  have hlen2 : ¬ (sizeofSockAddrIn < (if c.remote_set then sizeofSockAddrIn else srclen)) := by
    rcases hfit with h | h
    · simp [h]
    · split <;> omega
  simp only [loopBody, heven, if_true, RecvResult.ret, hlen, hlen2, if_false, ntohl_load32]
  simp

theorem loopBody_send (e : Endian) (c : Client) (k : Answer) (hodd : c.iter % 2 = 1)
    (hset : c.remote_set = true) (hs : 0 ≤ k.sendret) :
    loopBody e c k =
      { c with
        rounds := c.rounds + 1
        sent := c.sent ++ [Datagram.mk c.remote (counterMessage e c.iter)]
        iter := (c.iter + 1) % 2 ^ 32 } := by
  have h1 : ¬ (c.iter % 2 = 0) := by omega
  simp [loopBody, h1, hset, not_lt.mpr hs]

theorem loopBody_recv_bad (e : Endian) (c : Client) (data : List Byte) (src : SockAddrIn)
    (srclen : Nat) (sendret : Int) (heven : c.iter % 2 = 0) (hlen : data.length ≠ 4) :
    ∃ site, site.code = 9 ∧
      loopBody e c ⟨.datagram data src srclen, sendret⟩ =
        { c with
          rounds := c.rounds + 1
          remote := if c.remote_set then c.remote else src
          recvCalls := c.recvCalls + 1
          status := .returned site } := by
  by_cases h : sizeofSockAddrIn < (if c.remote_set then sizeofSockAddrIn else srclen)
  · exact ⟨.addrSpace, rfl, by simp [loopBody, heven, h]⟩
  · refine ⟨.sizeMismatch, rfl, ?_⟩
    have h4 : ¬ ((data.length : Int) = 4) := by exact_mod_cast hlen
    simp [loopBody, heven, h, RecvResult.ret, h4]

theorem clientLoop_stopped (e : Endian) (c : Client) (ks : List Answer)
    (h : c.status ≠ .running) : clientLoop e c ks = c := by
  have ht : loopTest c = c := by
    unfold loopTest
    split
    · rename_i h2; exact absurd h2 h
    · rfl
  cases ks with
  | nil => simp [clientLoop, ht]
  | cons k ks =>
    cases hs : c.status with
    | running => exact absurd hs h
    | returned site => simp [clientLoop, ht, hs]
    | aborted => simp [clientLoop, ht, hs]

theorem clientLoop_round (e : Endian) (c : Client) (k : Answer) (ks : List Answer)
    (hrun : c.status = .running) (hlt : c.iter < c.real_passes) :
    clientLoop e c (k :: ks) = clientLoop e (loopBody e c k) ks := by
  simp [clientLoop, loopTest, hrun, hlt]

theorem clientLoop_finish (e : Endian) (c : Client) (ks : List Answer)
    (hrun : c.status = .running) (hge : ¬ c.iter < c.real_passes) :
    clientLoop e c ks = { c with status := .returned .done } := by
  cases ks <;> simp [clientLoop, loopTest, hrun, hge]

/-! ## Role selection -/

theorem doublePasses_exact (passes : Int) (hlo : 1 ≤ passes) (hhi : passes ≤ 2 ^ 31 - 1) :
    (doublePasses passes : Int) = 2 * passes ∧ doublePasses passes + 1 < 2 ^ 32 := by
  unfold doublePasses
  have h1 : passes % 2 ^ 32 = passes := Int.emod_eq_of_lt (by omega) (by omega)
  rw [h1]
  omega

theorem fill6_eq_zero (reply : List Byte) (hlen : reply.length = 6) :
    fill6 reply = RegBuf.zero ↔ reply = sentinel := by
  match reply, hlen with
  | [a, b, c, d, f, g], _ =>
    simp [fill6, fill4, RegBuf.zero, Octets4.zero, Octets2.zero, sentinel, and_assoc]

theorem selectRole_listener (e : Endian) (rp : Nat) (junk : SockAddrIn) (fd2 : Int) :
    selectRole e RegBuf.zero rp junk fd2 =
      { remote := junk, remote_set := false, iter := 0, real_passes := rp,
        printed := [], sent := [], recvCalls := 0, rounds := 0, status := .running } := by
  have h1 : load32 e RegBuf.zero.addr = 0 := (load32_eq_zero e _).mpr rfl
  have h2 : load16 e RegBuf.zero.port = 0 := (load16_eq_zero e _).mpr rfl
  simp [selectRole, h1, h2]

theorem selectRole_initiator (e : Endian) (buf : RegBuf) (rp : Nat) (junk : SockAddrIn)
    (fd2 : Int) (hbuf : buf ≠ RegBuf.zero) (hfd : fd2 ≠ -1) :
    selectRole e buf rp junk fd2 =
      { remote := ⟨AF_INET, buf.port, buf.addr⟩, remote_set := true, iter := 1,
        real_passes := (rp + 1) % 2 ^ 32,
        printed := [], sent := [], recvCalls := 0, rounds := 0, status := .running } := by
  have h : ¬ (load32 e buf.addr = 0 ∧ load16 e buf.port = 0) := by
    rw [load32_eq_zero, load16_eq_zero]
    intro ⟨h1, h2⟩
    apply hbuf
    cases buf
    simp only [RegBuf.zero, RegBuf.mk.injEq]
    exact ⟨h1, h2⟩
  simp [selectRole, h, hfd, store32_load32, store16_load16]

/-- C3: for a six-octet reply and a validated pass count
(`1 ≤ passes ≤ 2^31 - 1`), with the second `socket` call succeeding: an
all-zero reply makes the client a Listener (peer unknown, `iter = 0`,
`real_passes = 2 * passes`); any other reply makes it an Initiator (peer known,
`iter = 1`, the peer's address and port octets are those of the reply,
`real_passes = 2 * passes + 1`). The 32-bit totals are the exact integers. -/
theorem role_selection (e : Endian) (reply : List Byte) (passes : Int) (junk : SockAddrIn)
    (fd2 : Int) (hlen : reply.length = 6) (hlo : 1 ≤ passes) (hhi : passes ≤ 2 ^ 31 - 1)
    (hfd : fd2 ≠ -1) :
    (selectRole e (fill6 reply) (doublePasses passes) junk fd2).status = .running ∧
      (reply = sentinel →
        (selectRole e (fill6 reply) (doublePasses passes) junk fd2).remote_set = false ∧
        (selectRole e (fill6 reply) (doublePasses passes) junk fd2).iter = 0 ∧
        ((selectRole e (fill6 reply) (doublePasses passes) junk fd2).real_passes : Int) =
          2 * passes) ∧
      (reply ≠ sentinel →
        (selectRole e (fill6 reply) (doublePasses passes) junk fd2).remote_set = true ∧
        (selectRole e (fill6 reply) (doublePasses passes) junk fd2).iter = 1 ∧
        (selectRole e (fill6 reply) (doublePasses passes) junk fd2).remote.sin_addr.bytes ++
          (selectRole e (fill6 reply) (doublePasses passes) junk fd2).remote.sin_port.bytes =
          reply ∧
        ((selectRole e (fill6 reply) (doublePasses passes) junk fd2).real_passes : Int) =
          2 * passes + 1) := by
  obtain ⟨hd, hd1⟩ := doublePasses_exact passes hlo hhi
  by_cases hz : reply = sentinel
  · have hb : fill6 reply = RegBuf.zero := (fill6_eq_zero reply hlen).mpr hz
    rw [hb, selectRole_listener]
    exact ⟨rfl, fun _ => ⟨rfl, rfl, hd⟩, fun h => absurd hz h⟩
  · have hb : fill6 reply ≠ RegBuf.zero := fun h => hz ((fill6_eq_zero reply hlen).mp h)
    rw [selectRole_initiator e _ _ junk fd2 hb hfd]
    refine ⟨rfl, fun h => absurd h hz, fun _ => ⟨rfl, rfl, ?_, ?_⟩⟩
    · match reply, hlen with
      | [a, b, c, d, f, g], _ => rfl
    · simp only [Nat.mod_eq_of_lt hd1]
      omega

/-- Witness for C3: the reply `10.0.0.1:5000` with the largest pass count. -/
theorem role_selection_witness :
    (selectRole .little (fill6 [10, 0, 0, 1, 19, 136]) (doublePasses 2147483647)
        ⟨0, ⟨7, 7⟩, ⟨9, 9, 9, 9⟩⟩ 4).iter = 1 ∧
      ((selectRole .little (fill6 [10, 0, 0, 1, 19, 136]) (doublePasses 2147483647)
        ⟨0, ⟨7, 7⟩, ⟨9, 9, 9, 9⟩⟩ 4).real_passes : Int) = 2 * 2147483647 + 1 :=
  have h := (role_selection .little [10, 0, 0, 1, 19, 136] 2147483647
    ⟨0, ⟨7, 7⟩, ⟨9, 9, 9, 9⟩⟩ 4 rfl (by decide) (by decide) (by decide)).2.2 (by decide)
  ⟨h.2.1, h.2.2.2⟩

/-! ## The exchange loop -/

/-- C4: in a receive round (`iter` even, loop test true) a datagram whose
length is not four octets makes the client return with exit code 9 at once:
whatever the kernel would answer afterwards, nothing is printed for the
datagram, nothing is sent, and no further `recvfrom` is made. A datagram of
four octets (its source address fitting `remote`) is accepted and the
big-endian value of its octets is printed. -/
theorem receive_round_size_check (e : Endian) (c : Client) (data : List Byte)
    (src : SockAddrIn) (srclen : Nat) (sendret : Int) (ks : List Answer)
    (hrun : c.status = .running) (hlt : c.iter < c.real_passes) (heven : c.iter % 2 = 0) :
    (data.length ≠ 4 →
      (∃ site, site.code = 9 ∧
        (clientLoop e c (⟨.datagram data src srclen, sendret⟩ :: ks)).status =
          .returned site) ∧
      (clientLoop e c (⟨.datagram data src srclen, sendret⟩ :: ks)).printed = c.printed ∧
      (clientLoop e c (⟨.datagram data src srclen, sendret⟩ :: ks)).sent = c.sent ∧
      (clientLoop e c (⟨.datagram data src srclen, sendret⟩ :: ks)).recvCalls =
        c.recvCalls + 1) ∧
    (data.length = 4 → (c.remote_set = true ∨ srclen ≤ sizeofSockAddrIn) →
      (loopBody e c ⟨.datagram data src srclen, sendret⟩).status = .running ∧
      (loopBody e c ⟨.datagram data src srclen, sendret⟩).printed =
        c.printed ++ [load32 .big (fill4 data)] ∧
      (clientLoop e c [⟨.datagram data src srclen, sendret⟩]).printed =
        c.printed ++ [load32 .big (fill4 data)]) := by
  rw [clientLoop_round e c _ ks hrun hlt, clientLoop_round e c _ [] hrun hlt]
  constructor
  · intro hlen
    obtain ⟨site, hcode, hbody⟩ := loopBody_recv_bad e c data src srclen sendret heven hlen
    rw [hbody, clientLoop_stopped e _ ks (by simp)]
    exact ⟨⟨site, hcode, rfl⟩, rfl, rfl, rfl⟩
  · intro hlen hfit
    rw [loopBody_recv e c data src srclen sendret heven hlen hfit]
    refine ⟨hrun, rfl, ?_⟩
    simp only [clientLoop, loopTest, hrun]
    split <;> rfl

/-- Witness for C4: a Listener in its first round gets a datagram of five
octets. -/
theorem receive_round_size_check_witness :
    (∃ site, site.code = 9 ∧
        (clientLoop .little (selectRole .little RegBuf.zero 4 ⟨0, ⟨7, 7⟩, ⟨9, 9, 9, 9⟩⟩ 3)
          (⟨.datagram [0, 0, 0, 1, 2] (SockAddrIn.ofInet 167772162 6000) 16, 4⟩ ::
            [⟨.datagram [0, 0, 0, 1] (SockAddrIn.ofInet 167772162 6000) 16, 4⟩])).status =
          .returned site) ∧
      (clientLoop .little (selectRole .little RegBuf.zero 4 ⟨0, ⟨7, 7⟩, ⟨9, 9, 9, 9⟩⟩ 3)
          (⟨.datagram [0, 0, 0, 1, 2] (SockAddrIn.ofInet 167772162 6000) 16, 4⟩ ::
            [⟨.datagram [0, 0, 0, 1] (SockAddrIn.ofInet 167772162 6000) 16, 4⟩])).printed =
        [] :=
  have h := (receive_round_size_check .little
    (selectRole .little RegBuf.zero 4 ⟨0, ⟨7, 7⟩, ⟨9, 9, 9, 9⟩⟩ 3) [0, 0, 0, 1, 2]
    (SockAddrIn.ofInet 167772162 6000) 16 4
    [⟨.datagram [0, 0, 0, 1] (SockAddrIn.ofInet 167772162 6000) 16, 4⟩]
    (by decide) (by decide) (by decide)).1 (by decide)
  ⟨h.1, h.2.1⟩

theorem loopTest_peerKnown (c : Client) (h : PeerKnown c) : PeerKnown (loopTest c) := by
  unfold loopTest
  split
  · split
    · exact h
    · exact ⟨by simp, by simp⟩
  · exact h

theorem loopBody_peerKnown (e : Endian) (c : Client) (k : Answer) (hrun : c.status = .running)
    (h : PeerKnown c) : PeerKnown (loopBody e c k) := by
  have hk := h.2 hrun
  unfold PeerKnown
  by_cases heven : c.iter % 2 = 0
  · simp only [loopBody, heven, if_true]
    split_ifs <;> simp [hrun]
  · have hset : c.remote_set = true := by
      rcases hk with h1 | h1
      · exact h1
      · exact absurd h1 heven
    simp only [loopBody]
    split_ifs <;> simp_all

theorem clientLoop_peerKnown (e : Endian) (ks : List Answer) :
    ∀ c : Client, PeerKnown c → PeerKnown (clientLoop e c ks) := by
  induction ks with
  | nil =>
    intro c h
    exact loopTest_peerKnown c h
  | cons k ks ih =>
    intro c h
    by_cases hrun : c.status = .running
    · by_cases hlt : c.iter < c.real_passes
      · rw [clientLoop_round e c k ks hrun hlt]
        exact ih _ (loopBody_peerKnown e c k hrun h)
      · rw [clientLoop_finish e c _ hrun hlt]
        exact ⟨by simp, by simp⟩
    · rw [clientLoop_stopped e c _ hrun]
      exact h

theorem selectRole_peerKnown (e : Endian) (buf : RegBuf) (rp : Nat) (junk : SockAddrIn)
    (fd2 : Int) : PeerKnown (selectRole e buf rp junk fd2) := by
  unfold selectRole PeerKnown
  split_ifs <;> simp

theorem clientMain_cases (e : Endian) (inp : ClientInput) :
    (∃ site, site ≠ .done ∧
        ∀ ks, clientMain e { inp with answers := ks } = Client.early inp.junk site) ∨
      ∃ buf, ∀ ks, clientMain e { inp with answers := ks } =
        clientLoop e (selectRole e buf (doublePasses inp.passes) inp.junk inp.fd2) ks := by
  by_cases h0 : inp.argc ≠ 4
  · refine Or.inl ⟨.usage, by decide, fun ks => ?_⟩
    unfold clientMain
    dsimp only
    rw [if_pos h0]
  by_cases h1 : inp.gaiRet = EAI_AGAIN
  · refine Or.inl ⟨.resolveAgain, by decide, fun ks => ?_⟩
    unfold clientMain
    dsimp only
    rw [if_neg h0, if_pos h1]
  by_cases h2 : inp.gaiRet ≠ 0
  · refine Or.inl ⟨.resolveOther, by decide, fun ks => ?_⟩
    unfold clientMain
    dsimp only
    rw [if_neg h0, if_neg h1, if_pos h2]
  by_cases h3 : sizeofSockAddrIn < inp.ai_addrlen
  · refine Or.inl ⟨.addrSize, by decide, fun ks => ?_⟩
    unfold clientMain
    dsimp only
    rw [if_neg h0, if_neg h1, if_neg h2, if_pos h3]
  by_cases h4 : inp.portRet ≠ 1
  · refine Or.inl ⟨.portParse, by decide, fun ks => ?_⟩
    unfold clientMain
    dsimp only
    rw [if_neg h0, if_neg h1, if_neg h2, if_neg h3, if_pos h4]
  by_cases h5 : inp.port ≤ 0
  · refine Or.inl ⟨.portLow, by decide, fun ks => ?_⟩
    unfold clientMain
    dsimp only
    rw [if_neg h0, if_neg h1, if_neg h2, if_neg h3, if_neg h4, if_pos h5]
  by_cases h6 : inp.port ≥ 65536
  · refine Or.inl ⟨.portHigh, by decide, fun ks => ?_⟩
    unfold clientMain
    dsimp only
    rw [if_neg h0, if_neg h1, if_neg h2, if_neg h3, if_neg h4, if_neg h5, if_pos h6]
  by_cases h7 : inp.passesRet ≠ 1
  · refine Or.inl ⟨.passesParse, by decide, fun ks => ?_⟩
    unfold clientMain
    dsimp only
    rw [if_neg h0, if_neg h1, if_neg h2, if_neg h3, if_neg h4, if_neg h5, if_neg h6, if_pos h7]
  by_cases h8 : inp.passes ≤ 0
  · refine Or.inl ⟨.passesLow, by decide, fun ks => ?_⟩
    unfold clientMain
    dsimp only
    rw [if_neg h0, if_neg h1, if_neg h2, if_neg h3, if_neg h4, if_neg h5, if_neg h6, if_neg h7, if_pos h8]
  by_cases h9 : inp.fd = -1
  · refine Or.inl ⟨.socket, by decide, fun ks => ?_⟩
    unfold clientMain
    dsimp only
    rw [if_neg h0, if_neg h1, if_neg h2, if_neg h3, if_neg h4, if_neg h5, if_neg h6, if_neg h7, if_neg h8, if_pos h9]
  by_cases h10 : inp.sendret < 0
  · refine Or.inl ⟨.sendServer, by decide, fun ks => ?_⟩
    unfold clientMain
    dsimp only
    rw [if_neg h0, if_neg h1, if_neg h2, if_neg h3, if_neg h4, if_neg h5, if_neg h6, if_neg h7, if_neg h8, if_neg h9, if_pos h10]
  by_cases h11 : inp.reply.ret < 0
  · refine Or.inl ⟨.recvServer, by decide, fun ks => ?_⟩
    unfold clientMain
    dsimp only
    rw [if_neg h0, if_neg h1, if_neg h2, if_neg h3, if_neg h4, if_neg h5, if_neg h6, if_neg h7, if_neg h8, if_neg h9, if_neg h10, if_pos h11]
  refine Or.inr ⟨replyBuf inp.reply, fun ks => ?_⟩
  unfold clientMain
  dsimp only
  rw [if_neg h0, if_neg h1, if_neg h2, if_neg h3, if_neg h4, if_neg h5, if_neg h6, if_neg h7, if_neg h8, if_neg h9, if_neg h10, if_neg h11]

theorem ClientInput.with_answers (inp : ClientInput) :
    { inp with answers := inp.answers } = inp := rfl

theorem clientLoop_append_stopped (e : Endian) (ks1 ks2 : List Answer) :
    ∀ c : Client, (clientLoop e c ks1).status ≠ .running →
      clientLoop e c (ks1 ++ ks2) = clientLoop e c ks1 := by
  induction ks1 with
  | nil =>
    intro c h
    by_cases hrun : c.status = .running
    · by_cases hlt : c.iter < c.real_passes
      · exact absurd (by simp [clientLoop, loopTest, hrun, hlt]) h
      · rw [clientLoop_finish e c _ hrun hlt, clientLoop_finish e c _ hrun hlt]
    · rw [clientLoop_stopped e c _ hrun, clientLoop_stopped e c _ hrun]
  | cons k ks1 ih =>
    intro c h
    by_cases hrun : c.status = .running
    · by_cases hlt : c.iter < c.real_passes
      · rw [clientLoop_round e c k ks1 hrun hlt] at h
        rw [List.cons_append, clientLoop_round e c k _ hrun hlt,
          clientLoop_round e c k ks1 hrun hlt]
        exact ih _ h
      · rw [clientLoop_finish e c _ hrun hlt, clientLoop_finish e c _ hrun hlt]
    · rw [clientLoop_stopped e c _ hrun, clientLoop_stopped e c _ hrun]

/-- C8: no run of the client, whatever its arguments, the server's reply and
the kernel's answers in the exchange loop, ends in the abort of
`assert(remote_set)`. -/
theorem assert_remote_set_never_fails (e : Endian) (inp : ClientInput) :
    (clientMain e inp).status ≠ .aborted := by
  rcases clientMain_cases e inp with ⟨site, -, h⟩ | ⟨buf, h⟩
  · have h0 := h inp.answers
    rw [ClientInput.with_answers] at h0
    rw [h0]
    simp [Client.early]
  · have h0 := h inp.answers
    rw [ClientInput.with_answers] at h0
    rw [h0]
    exact (clientLoop_peerKnown e _ _ (selectRole_peerKnown e _ _ _ _)).1

theorem loopBody_peerIs (e : Endian) (a : SockAddrIn) (c : Client) (k : Answer)
    (h : PeerIs a c) : PeerIs a (loopBody e c k) := by
  obtain ⟨hset, hrem, hsent⟩ := h
  unfold PeerIs
  simp only [loopBody]
  split_ifs <;> simp_all
  all_goals
    rintro d (hd | rfl)
    exacts [hsent d hd, rfl]

theorem clientLoop_peerIs (e : Endian) (a : SockAddrIn) (ks : List Answer) :
    ∀ c : Client, PeerIs a c → PeerIs a (clientLoop e c ks) := by
  induction ks with
  | nil =>
    intro c h
    by_cases hrun : c.status = .running
    · by_cases hlt : c.iter < c.real_passes
      · simpa [clientLoop, loopTest, hrun, hlt] using h
      · rw [clientLoop_finish e c _ hrun hlt]
        exact h
    · rw [clientLoop_stopped e c _ hrun]
      exact h
  | cons k ks ih =>
    intro c h
    by_cases hrun : c.status = .running
    · by_cases hlt : c.iter < c.real_passes
      · rw [clientLoop_round e c k ks hrun hlt]
        exact ih _ (loopBody_peerIs e a c k h)
      · rw [clientLoop_finish e c _ hrun hlt]
        exact h
    · rw [clientLoop_stopped e c _ hrun]
      exact h

/-- C7: a Listener (validated `passes`) whose first `recvfrom` gives a
four-octet datagram from `src` has `remote = src` at every later point of the
run, whatever the kernel answers in the later rounds and whatever the sources
of later datagrams, and every datagram it sends is addressed to `src`. -/
theorem listener_peer_fixed (e : Endian) (passes : Int) (junk : SockAddrIn) (fd2 : Int)
    (data : List Byte) (src : SockAddrIn) (srclen : Nat) (sendret : Int) (ks : List Answer)
    (hlo : 1 ≤ passes) (hhi : passes ≤ 2 ^ 31 - 1) (hlen : data.length = 4)
    (hfit : srclen ≤ sizeofSockAddrIn) :
    (selectRole e (fill6 sentinel) (doublePasses passes) junk fd2).remote_set = false ∧
      (clientLoop e (selectRole e (fill6 sentinel) (doublePasses passes) junk fd2)
        (⟨.datagram data src srclen, sendret⟩ :: ks)).remote = src ∧
      ∀ d ∈ (clientLoop e (selectRole e (fill6 sentinel) (doublePasses passes) junk fd2)
        (⟨.datagram data src srclen, sendret⟩ :: ks)).sent, d.dest = src := by
  have hz : fill6 sentinel = RegBuf.zero := rfl
  obtain ⟨hd, -⟩ := doublePasses_exact passes hlo hhi
  rw [hz]
  have hc0 := selectRole_listener e (doublePasses passes) junk fd2
  generalize selectRole e RegBuf.zero (doublePasses passes) junk fd2 = c0 at hc0 ⊢
  have hrun : c0.status = .running := by rw [hc0]
  have hiter : c0.iter = 0 := by rw [hc0]
  have hset : c0.remote_set = false := by rw [hc0]
  have hrp : c0.real_passes = doublePasses passes := by rw [hc0]
  have hsent : c0.sent = [] := by rw [hc0]
  refine ⟨hset, ?_⟩
  rw [clientLoop_round e c0 _ ks hrun (by rw [hiter, hrp]; omega)]
  have hb := loopBody_recv e c0 data src srclen sendret (by rw [hiter]) hlen (Or.inr hfit)
  have hP : PeerIs src (loopBody e c0 ⟨.datagram data src srclen, sendret⟩) := by
    rw [hb]
    exact ⟨rfl, by simp [hset], by simp [hsent]⟩
  have h := clientLoop_peerIs e src ks _ hP
  exact ⟨h.2.1, h.2.2⟩

/-- Witness for C7: the second datagram comes from another source; the peer
stays the source of the first. -/
theorem listener_peer_fixed_witness :
    (clientLoop .little (selectRole .little (fill6 sentinel) (doublePasses 2)
        ⟨0, ⟨7, 7⟩, ⟨9, 9, 9, 9⟩⟩ 3)
        (⟨.datagram [0, 0, 0, 0] (SockAddrIn.ofInet 167772162 6000) 16, 4⟩ ::
          [⟨.error, 4⟩, ⟨.datagram [0, 0, 0, 1] (SockAddrIn.ofInet 3232235777 7000) 16, 4⟩,
            ⟨.error, 4⟩])).remote = SockAddrIn.ofInet 167772162 6000 :=
  (listener_peer_fixed .little 2 ⟨0, ⟨7, 7⟩, ⟨9, 9, 9, 9⟩⟩ 3 [0, 0, 0, 0]
    (SockAddrIn.ofInet 167772162 6000) 16 4
    [⟨.error, 4⟩, ⟨.datagram [0, 0, 0, 1] (SockAddrIn.ofInet 3232235777 7000) 16, 4⟩,
      ⟨.error, 4⟩] (by decide) (by decide) rfl (by decide)).2.1

theorem loopBody_ok (e : Endian) (c : Client) (k : Answer) (hlt : c.iter < c.real_passes)
    (h32 : c.real_passes < 2 ^ 32) (hpk : c.remote_set = true ∨ c.iter % 2 = 0)
    (hk : k.ok = true) :
    (loopBody e c k).status = c.status ∧ (loopBody e c k).iter = c.iter + 1 ∧
      (loopBody e c k).real_passes = c.real_passes ∧ (loopBody e c k).remote_set = true ∧
      (loopBody e c k).rounds = c.rounds + 1 := by
  have hnext : (c.iter + 1) % 2 ^ 32 = c.iter + 1 := Nat.mod_eq_of_lt (by omega)
  obtain ⟨recv, sendret⟩ := k
  by_cases heven : c.iter % 2 = 0
  · cases recv with
    | error => simp [Answer.ok] at hk
    | datagram data src srclen =>
      simp only [Answer.ok, Bool.and_eq_true, decide_eq_true_eq] at hk
      rw [loopBody_recv e c data src srclen sendret heven hk.2.1 (Or.inr hk.2.2), hnext]
      exact ⟨rfl, rfl, rfl, rfl, rfl⟩
  · have hset : c.remote_set = true := by
      rcases hpk with h | h
      · exact h
      · exact absurd h heven
    have hs : 0 ≤ sendret := by
      simp only [Answer.ok, Bool.and_eq_true, decide_eq_true_eq] at hk
      exact hk.1
    rw [loopBody_send e c ⟨recv, sendret⟩ (by omega) hset hs, hnext]
    exact ⟨rfl, rfl, rfl, hset, rfl⟩

theorem clientLoop_ok (e : Endian) (ks : List Answer) :
    ∀ c : Client, c.status = .running → c.iter ≤ c.real_passes → c.real_passes < 2 ^ 32 →
      (c.remote_set = true ∨ c.iter % 2 = 0) → (∀ k ∈ ks, k.ok = true) →
      c.real_passes - c.iter ≤ ks.length →
      (clientLoop e c ks).status = .returned .done ∧
        (clientLoop e c ks).rounds = c.rounds + (c.real_passes - c.iter) ∧
        (clientLoop e c ks).real_passes = c.real_passes := by
  induction ks with
  | nil =>
    intro c hrun hle _ _ _ hlen
    have hge : ¬ c.iter < c.real_passes := by simp only [List.length_nil] at hlen; omega
    rw [clientLoop_finish e c _ hrun hge]
    refine ⟨rfl, ?_, rfl⟩
    show c.rounds = c.rounds + (c.real_passes - c.iter)
    omega
  | cons k ks ih =>
    intro c hrun hle h32 hpk hok hlen
    by_cases hlt : c.iter < c.real_passes
    · rw [clientLoop_round e c k ks hrun hlt]
      have hk := hok k (List.mem_cons_self _ _)
      have hoks : ∀ x ∈ ks, x.ok = true := fun x hx => hok x (List.mem_cons_of_mem _ hx)
      simp only [List.length_cons] at hlen
      obtain ⟨b1, b2, b3, b4, b5⟩ := loopBody_ok e c k hlt h32 hpk hk
      obtain ⟨h1, h2, h3⟩ := ih (loopBody e c k) (by rw [b1, hrun]) (by rw [b2, b3]; omega)
        (by rw [b3]; exact h32) (Or.inl b4) hoks (by rw [b2, b3]; omega)
      refine ⟨h1, ?_, by rw [h3, b3]⟩
      rw [h2, b2, b3, b5]
      omega
    · rw [clientLoop_finish e c _ hrun hlt]
      refine ⟨rfl, ?_, rfl⟩
      show c.rounds = c.rounds + (c.real_passes - c.iter)
      omega

theorem clientMain_valid (e : Endian) (inp : ClientInput) (hvalid : inp.valid = true) :
    (1 ≤ inp.passes ∧ inp.passes ≤ 2 ^ 31 - 1 ∧ inp.fd2 ≠ -1) ∧
      clientMain e inp =
        clientLoop e
          (selectRole e (replyBuf inp.reply) (doublePasses inp.passes) inp.junk inp.fd2)
          inp.answers := by
  simp only [ClientInput.valid, Bool.and_eq_true, decide_eq_true_eq] at hvalid
  obtain ⟨⟨⟨⟨⟨⟨⟨⟨⟨⟨⟨⟨h1, h2⟩, h3⟩, h4⟩, h5⟩, h6⟩, h7⟩, h8⟩, h9⟩, h10⟩, h11⟩, h12⟩, h13⟩
    := hvalid
  refine ⟨⟨by omega, by omega, h13⟩, ?_⟩
  unfold clientMain
  rw [if_neg (by simp [h1]), if_neg (by rw [h2]; decide), if_neg (by simp [h2]),
    if_neg (by omega), if_neg (by simp [h4]), if_neg (by omega), if_neg (by omega),
    if_neg (by simp [h7]), if_neg (by omega), if_neg h10, if_neg (by omega),
    if_neg (by omega)]

theorem clientLoop_prefix (e : Endian) (pre : List Answer) :
    ∀ c : Client, c.status = .running → c.real_passes < 2 ^ 32 →
      (c.remote_set = true ∨ c.iter % 2 = 0) → (∀ k ∈ pre, k.ok = true) →
      c.iter + pre.length < c.real_passes →
      (clientLoop e c pre).status = .running ∧
        (clientLoop e c pre).iter = c.iter + pre.length ∧
        (clientLoop e c pre).rounds = c.rounds + pre.length ∧
        (clientLoop e c pre).real_passes = c.real_passes ∧
        ((clientLoop e c pre).remote_set = true ∨ (clientLoop e c pre).iter % 2 = 0) := by
  induction pre with
  | nil =>
    intro c hrun _ hpk _ hlt
    have hlt0 : c.iter < c.real_passes := by simpa using hlt
    have h0 : clientLoop e c [] = c := by simp [clientLoop, loopTest, hrun, hlt0]
    rw [h0]
    exact ⟨hrun, rfl, rfl, rfl, hpk⟩
  | cons k pre ih =>
    intro c hrun h32 hpk hok hlt
    simp only [List.length_cons] at hlt
    have hlt0 : c.iter < c.real_passes := by omega
    rw [clientLoop_round e c k pre hrun hlt0]
    obtain ⟨b1, b2, b3, b4, b5⟩ :=
      loopBody_ok e c k hlt0 h32 hpk (hok k (List.mem_cons_self _ _))
    obtain ⟨h1, h2, h3, h4, h5⟩ := ih (loopBody e c k) (by rw [b1, hrun])
      (by rw [b3]; exact h32) (Or.inl b4) (fun x hx => hok x (List.mem_cons_of_mem _ hx))
      (by rw [b2, b3]; omega)
    refine ⟨h1, ?_, ?_, by rw [h4, b3], h5⟩
    · rw [h2, b2, List.length_cons]
      omega
    · rw [h3, b5, List.length_cons]
      omega

theorem clientLoop_append_running (e : Endian) (pre more : List Answer) :
    ∀ c : Client, (clientLoop e c pre).status = .running →
      clientLoop e c (pre ++ more) = clientLoop e (clientLoop e c pre) more := by
  induction pre with
  | nil =>
    intro c h
    by_cases hrun : c.status = .running
    · by_cases hlt : c.iter < c.real_passes
      · have h0 : clientLoop e c [] = c := by simp [clientLoop, loopTest, hrun, hlt]
        rw [h0, List.nil_append]
      · rw [clientLoop_finish e c _ hrun hlt] at h
        exact absurd h (by simp)
    · rw [clientLoop_stopped e c _ hrun] at h
      exact absurd h hrun
  | cons k pre ih =>
    intro c h
    by_cases hrun : c.status = .running
    · by_cases hlt : c.iter < c.real_passes
      · rw [clientLoop_round e c k pre hrun hlt] at h ⊢
        rw [List.cons_append, clientLoop_round e c k _ hrun hlt]
        exact ih _ h
      · rw [clientLoop_finish e c _ hrun hlt] at h
        exact absurd h (by simp)
    · rw [clientLoop_stopped e c _ hrun] at h
      exact absurd h hrun

theorem clientMain_valid_answers (e : Endian) (inp : ClientInput) (hvalid : inp.valid = true)
    (ks : List Answer) :
    clientMain e { inp with answers := ks } =
      clientLoop e
        (selectRole e (replyBuf inp.reply) (doublePasses inp.passes) inp.junk inp.fd2) ks :=
  (clientMain_valid e { inp with answers := ks } hvalid).2

theorem selectRole_start (e : Endian) (buf : RegBuf) (passes : Int) (junk : SockAddrIn)
    (fd2 : Int) (hlo : 1 ≤ passes) (hhi : passes ≤ 2 ^ 31 - 1) (hfd : fd2 ≠ -1) :
    (selectRole e buf (doublePasses passes) junk fd2).status = .running ∧
      (selectRole e buf (doublePasses passes) junk fd2).rounds = 0 ∧
      (selectRole e buf (doublePasses passes) junk fd2).real_passes < 2 ^ 32 ∧
      ((selectRole e buf (doublePasses passes) junk fd2).remote_set = true ∨
        (selectRole e buf (doublePasses passes) junk fd2).iter % 2 = 0) ∧
      (buf = RegBuf.zero →
        (selectRole e buf (doublePasses passes) junk fd2).iter = 0 ∧
        ((selectRole e buf (doublePasses passes) junk fd2).real_passes : Int) = 2 * passes) ∧
      (buf ≠ RegBuf.zero →
        (selectRole e buf (doublePasses passes) junk fd2).iter = 1 ∧
        ((selectRole e buf (doublePasses passes) junk fd2).real_passes : Int) =
          2 * passes + 1) := by
  obtain ⟨hd, hd1⟩ := doublePasses_exact passes hlo hhi
  by_cases hz : buf = RegBuf.zero
  · subst hz
    rw [selectRole_listener]
    exact ⟨rfl, rfl, by show doublePasses passes < 2 ^ 32; omega, Or.inr rfl,
      fun _ => ⟨rfl, hd⟩, fun h => absurd rfl h⟩
  · rw [selectRole_initiator e buf _ junk fd2 hz hfd, Nat.mod_eq_of_lt hd1]
    exact ⟨rfl, rfl, hd1, Or.inl rfl, fun h => absurd h hz,
      fun _ => ⟨rfl, by show ((doublePasses passes + 1 : Nat) : Int) = _; omega⟩⟩

/-- C6 as amended: in a run with valid arguments in which no I/O call fails
and every datagram received in the loop has four octets, the exchange loop
performs exactly `2 * passes` rounds in either role and the client then
returns 0. After an all-zero reply (Listener) the bound is `2 * passes` and
round number `j + 1` runs at index `j`, so the rounds run at indices
`0 .. 2 * passes - 1`; after any other reply (Initiator) the bound is
`2 * passes + 1` and round number `j + 1` runs at index `j + 1`, so the rounds
run at indices `1 .. 2 * passes`. -/
theorem exchange_rounds (e : Endian) (inp : ClientInput) (hvalid : inp.valid = true)
    (hok : ∀ k ∈ inp.answers, k.ok = true) (hlen : 2 * inp.passes ≤ inp.answers.length) :
    (clientMain e inp).status = .returned .done ∧ Site.done.code = 0 ∧
      ((clientMain e inp).rounds : Int) = 2 * inp.passes ∧
      (replyBuf inp.reply = RegBuf.zero →
        ((clientMain e inp).real_passes : Int) = 2 * inp.passes ∧
        ∀ j : Nat, (j : Int) < 2 * inp.passes →
          (clientMain e { inp with answers := inp.answers.take j }).status = .running ∧
          (clientMain e { inp with answers := inp.answers.take j }).iter = j ∧
          (clientMain e { inp with answers := inp.answers.take j }).rounds = j) ∧
      (replyBuf inp.reply ≠ RegBuf.zero →
        ((clientMain e inp).real_passes : Int) = 2 * inp.passes + 1 ∧
        ∀ j : Nat, (j : Int) < 2 * inp.passes →
          (clientMain e { inp with answers := inp.answers.take j }).status = .running ∧
          (clientMain e { inp with answers := inp.answers.take j }).iter = j + 1 ∧
          (clientMain e { inp with answers := inp.answers.take j }).rounds = j) := by
  obtain ⟨⟨hlo, hhi, hfd⟩, hmain⟩ := clientMain_valid e inp hvalid
  obtain ⟨s1, s2, s3, s4, s5, s6⟩ :=
    selectRole_start e (replyBuf inp.reply) inp.passes inp.junk inp.fd2 hlo hhi hfd
  have hpre : ∀ j : Nat, (j : Int) < 2 * inp.passes →
      (∀ k ∈ inp.answers.take j, k.ok = true) ∧ (inp.answers.take j).length = j := by
    intro j hj
    refine ⟨fun k hk => hok k (List.mem_of_mem_take hk), ?_⟩
    rw [List.length_take]
    omega
  simp only [clientMain_valid_answers e inp hvalid]
  generalize selectRole e (replyBuf inp.reply) (doublePasses inp.passes) inp.junk inp.fd2 = c0
    at s1 s2 s3 s4 s5 s6 ⊢
  by_cases hz : replyBuf inp.reply = RegBuf.zero
  · obtain ⟨hiter, hrp⟩ := s5 hz
    obtain ⟨h1, h2, h3⟩ := clientLoop_ok e inp.answers c0 s1 (by omega) s3 s4 hok (by omega)
    refine ⟨h1, rfl, by rw [h2, s2, hiter]; omega, fun _ => ⟨by rw [h3]; exact hrp, ?_⟩,
      fun h => absurd hz h⟩
    intro j hj
    obtain ⟨hjok, hjlen⟩ := hpre j hj
    obtain ⟨p1, p2, p3, -, -⟩ := clientLoop_prefix e (inp.answers.take j) c0 s1 s3 s4 hjok
      (by rw [hjlen, hiter]; omega)
    exact ⟨p1, by rw [p2, hjlen, hiter]; omega, by rw [p3, hjlen, s2]; omega⟩
  · obtain ⟨hiter, hrp⟩ := s6 hz
    obtain ⟨h1, h2, h3⟩ := clientLoop_ok e inp.answers c0 s1 (by omega) s3 s4 hok (by omega)
    refine ⟨h1, rfl, by rw [h2, s2, hiter]; omega, fun h => absurd h hz,
      fun _ => ⟨by rw [h3]; exact hrp, ?_⟩⟩
    intro j hj
    obtain ⟨hjok, hjlen⟩ := hpre j hj
    obtain ⟨p1, p2, p3, -, -⟩ := clientLoop_prefix e (inp.answers.take j) c0 s1 s3 s4 hjok
      (by rw [hjlen, hiter]; omega)
    exact ⟨p1, by rw [p2, hjlen, hiter]; omega, by rw [p3, hjlen, s2]; omega⟩

/-- Witness for C6 as amended: an Initiator with `passes = 1` has the bound 3
and is at index 2 after its first round. -/
theorem exchange_rounds_witness :
    ((clientMain .little
      { argc := 4, gaiRet := 0, ai_addrlen := 16, portRet := 1, port := 9000, passesRet := 1,
        passes := 1, fd := 3, sendret := 6,
        reply := .datagram [10, 0, 0, 1, 19, 136] (SockAddrIn.ofInet 2130706433 9000) 16,
        junk := ⟨0, ⟨7, 7⟩, ⟨9, 9, 9, 9⟩⟩, fd2 := 4,
        answers := [⟨.datagram [0, 0, 0, 0] (SockAddrIn.ofInet 167772161 5000) 16, 4⟩,
          ⟨.datagram [0, 0, 0, 0] (SockAddrIn.ofInet 167772161 5000) 16, 4⟩] }).real_passes
        : Int) = 2 * 1 + 1 ∧
      (clientMain .little
        { argc := 4, gaiRet := 0, ai_addrlen := 16, portRet := 1, port := 9000,
          passesRet := 1, passes := 1, fd := 3, sendret := 6,
          reply := .datagram [10, 0, 0, 1, 19, 136] (SockAddrIn.ofInet 2130706433 9000) 16,
          junk := ⟨0, ⟨7, 7⟩, ⟨9, 9, 9, 9⟩⟩, fd2 := 4,
          answers := List.take 1
            [⟨.datagram [0, 0, 0, 0] (SockAddrIn.ofInet 167772161 5000) 16, 4⟩,
              ⟨.datagram [0, 0, 0, 0] (SockAddrIn.ofInet 167772161 5000) 16, 4⟩] }).iter =
        1 + 1 :=
  have h := (exchange_rounds .little
    { argc := 4, gaiRet := 0, ai_addrlen := 16, portRet := 1, port := 9000, passesRet := 1,
      passes := 1, fd := 3, sendret := 6,
      reply := .datagram [10, 0, 0, 1, 19, 136] (SockAddrIn.ofInet 2130706433 9000) 16,
      junk := ⟨0, ⟨7, 7⟩, ⟨9, 9, 9, 9⟩⟩, fd2 := 4,
      answers := [⟨.datagram [0, 0, 0, 0] (SockAddrIn.ofInet 167772161 5000) 16, 4⟩,
        ⟨.datagram [0, 0, 0, 0] (SockAddrIn.ofInet 167772161 5000) 16, 4⟩] }
    (by decide) (by decide) (by decide)).2.2.2.2 (by decide)
  ⟨h.1, (h.2 1 (by decide)).2.1⟩

/-- Counterexample to C6 as stated: an Initiator with `passes = 1`, no I/O
failure and a four-octet datagram, has `real_passes = 3` but returns 0 after
two rounds (one send, one receive), not three. -/
theorem initiator_rounds_not_total :
    (clientMain .little
      { argc := 4, gaiRet := 0, ai_addrlen := 16, portRet := 1, port := 9000, passesRet := 1,
        passes := 1, fd := 3, sendret := 6,
        reply := .datagram [10, 0, 0, 1, 19, 136] (SockAddrIn.ofInet 2130706433 9000) 16,
        junk := ⟨0, ⟨7, 7⟩, ⟨9, 9, 9, 9⟩⟩, fd2 := 4,
        answers := [⟨.error, 4⟩,
          ⟨.datagram [0, 0, 0, 0] (SockAddrIn.ofInet 167772161 5000) 16, 4⟩,
          ⟨.error, 4⟩] }) =
      { remote := ⟨AF_INET, ⟨19, 136⟩, ⟨10, 0, 0, 1⟩⟩, remote_set := true, iter := 3,
        real_passes := 3, printed := [0],
        sent := [Datagram.mk ⟨AF_INET, ⟨19, 136⟩, ⟨10, 0, 0, 1⟩⟩ [0, 0, 0, 0]],
        recvCalls := 1, rounds := 2, status := .returned .done } := by
  decide

/-! ## Exit codes of the client -/

theorem loopBody_recv_error (e : Endian) (c : Client) (k : Answer)
    (heven : c.iter % 2 = 0) (hk : k.recv = .error) :
    (loopBody e c k).status = .returned .recvPeer := by
  obtain ⟨recv, sendret⟩ := k
  simp only at hk
  subst hk
  have h : ¬ (sizeofSockAddrIn < (if c.remote_set then sizeofSockAddrIn else sizeofSockAddrIn)) := by
    split <;> exact lt_irrefl _
  simp [loopBody, heven, h, RecvResult.ret]

theorem loopBody_size_mismatch (e : Endian) (c : Client) (k : Answer) (data : List Byte)
    (src : SockAddrIn) (srclen : Nat) (heven : c.iter % 2 = 0)
    (hk : k.recv = .datagram data src srclen) (hfit : srclen ≤ sizeofSockAddrIn)
    (hlen : data.length ≠ 4) :
    (loopBody e c k).status = .returned .sizeMismatch := by
  obtain ⟨recv, sendret⟩ := k
  simp only at hk
  subst hk
  have h : ¬ (sizeofSockAddrIn < (if c.remote_set then sizeofSockAddrIn else srclen)) := by
    split <;> omega
  have h4 : ¬ ((data.length : Int) = 4) := by exact_mod_cast hlen
  have h5 : ¬ ((data.length : Int) < 0) := by omega
  simp [loopBody, heven, h, RecvResult.ret, h4, h5]

theorem loopBody_addr_space (e : Endian) (c : Client) (k : Answer) (data : List Byte)
    (src : SockAddrIn) (srclen : Nat) (heven : c.iter % 2 = 0)
    (hk : k.recv = .datagram data src srclen) (hbig : sizeofSockAddrIn < srclen)
    (hset : c.remote_set = false) :
    (loopBody e c k).status = .returned .addrSpace := by
  obtain ⟨recv, sendret⟩ := k
  simp only at hk
  subst hk
  simp [loopBody, heven, hset, hbig]

theorem loopBody_send_fail (e : Endian) (c : Client) (k : Answer) (hodd : c.iter % 2 = 1)
    (hset : c.remote_set = true) (hs : k.sendret < 0) :
    (loopBody e c k).status = .returned .sendPeer := by
  have h1 : ¬ (c.iter % 2 = 0) := by omega
  simp [loopBody, h1, hset, hs]

theorem clientLoop_fails (e : Endian) (c : Client) (k : Answer) (rest : List Answer)
    (site : Site) (hrun : c.status = .running) (hlt : c.iter < c.real_passes)
    (h : (loopBody e c k).status = .returned site) :
    (clientLoop e c (k :: rest)).status = .returned site := by
  rw [clientLoop_round e c k rest hrun hlt, clientLoop_stopped e _ rest (by rw [h]; simp), h]

theorem site_codes (s1 s2 : Site) (h1 : s1 ≠ .done) :
    s1.code ≠ 0 ∧
      (s1.code = s2.code → s1.cls = s2.cls ∨ s2 = .done ∨
        (s1.code = 9 ∧
          ((s1.cls = some .sendRecv ∧ s2.cls = some .protocolSize) ∨
            (s1.cls = some .protocolSize ∧ s2.cls = some .sendRecv)))) := by
  cases s1 <;> cases s2 <;> simp [Site.code, Site.cls] at h1 ⊢

/-- C10 as amended: each failure the client checks for makes it return at
once with a nonzero exit code: wrong argument count 1; host resolution 2, or 3
for an address that does not fit; port or pass count that does not parse or is
out of range 4 and 5; `socket` 6 (either socket); `sendto` to the server 7;
`recvfrom` from the server 8; in the exchange loop a failed `recvfrom` 9, a
datagram of the wrong size 9, a source address that does not fit 9, a failed
`sendto` 10. A failed run is the same whatever the kernel would have answered
afterwards. Two failed runs with the same exit code failed in the same class,
except that code 9 is shared by the send/receive class (failed `recvfrom` in
the loop) and the protocol-size class (datagram of the wrong size). -/
theorem client_exit_codes (e : Endian) (inp inp2 : ClientInput) (pre rest : List Answer)
    (k : Answer) (n1 n2 : Nat) (cl1 cl2 : FailClass) :
    (inp.argc ≠ 4 → (clientMain e inp).failed 1 .usage) ∧
    (inp.argc = 4 →
      (inp.gaiRet ≠ 0 → (clientMain e inp).failed 2 .resolution) ∧
      (inp.gaiRet = 0 →
        (sizeofSockAddrIn < inp.ai_addrlen → (clientMain e inp).failed 3 .resolution) ∧
        (inp.ai_addrlen ≤ sizeofSockAddrIn →
          (inp.portRet ≠ 1 ∨ inp.port ≤ 0 ∨ 65536 ≤ inp.port →
            (clientMain e inp).failed 4 .parse) ∧
          (inp.portRet = 1 → 0 < inp.port → inp.port < 65536 →
            (inp.passesRet ≠ 1 ∨ inp.passes ≤ 0 → (clientMain e inp).failed 5 .parse) ∧
            (inp.passesRet = 1 → 0 < inp.passes →
              (inp.fd = -1 → (clientMain e inp).failed 6 .socket) ∧
              (inp.fd ≠ -1 →
                (inp.sendret < 0 → (clientMain e inp).failed 7 .sendRecv) ∧
                (0 ≤ inp.sendret →
                  (inp.reply.ret < 0 → (clientMain e inp).failed 8 .sendRecv) ∧
                  (0 ≤ inp.reply.ret → replyBuf inp.reply ≠ RegBuf.zero → inp.fd2 = -1 →
                    (clientMain e inp).failed 6 .socket)))))))) ∧
    (inp.valid = true → (∀ a ∈ pre, a.ok = true) → (pre.length : Int) < 2 * inp.passes →
      (clientMain e { inp with answers := pre }).status = .running ∧
      ((clientMain e { inp with answers := pre }).iter % 2 = 0 →
        (k.recv = .error →
          (clientMain e { inp with answers := pre ++ k :: rest }).failed 9 .sendRecv) ∧
        (∀ data src srclen, k.recv = .datagram data src srclen →
          srclen ≤ sizeofSockAddrIn → data.length ≠ 4 →
          (clientMain e { inp with answers := pre ++ k :: rest }).failed 9 .protocolSize) ∧
        (∀ data src srclen, k.recv = .datagram data src srclen →
          sizeofSockAddrIn < srclen →
          (clientMain e { inp with answers := pre }).remote_set = false →
          (clientMain e { inp with answers := pre ++ k :: rest }).failed 9 .sendRecv)) ∧
      ((clientMain e { inp with answers := pre }).iter % 2 = 1 → k.sendret < 0 →
        (clientMain e { inp with answers := pre ++ k :: rest }).failed 10 .sendRecv)) ∧
    ((clientMain e inp).failed n1 cl1 →
      n1 ≠ 0 ∧
      (∀ ks, clientMain e { inp with answers := inp.answers ++ ks } = clientMain e inp) ∧
      ((clientMain e inp2).failed n2 cl2 → n1 = n2 →
        cl1 = cl2 ∨
          (n1 = 9 ∧ ((cl1 = .sendRecv ∧ cl2 = .protocolSize) ∨
            (cl1 = .protocolSize ∧ cl2 = .sendRecv))))) := by
  refine ⟨?_, ?_, ?_, ?_⟩
  · intro h
    unfold clientMain
    rw [if_pos h]
    exact ⟨.usage, rfl, rfl, rfl⟩
  · intro h0
    refine ⟨?_, ?_⟩
    · intro hg
      unfold clientMain
      rw [if_neg (not_not.mpr h0)]
      by_cases ha : inp.gaiRet = EAI_AGAIN
      · rw [if_pos ha]
        exact ⟨.resolveAgain, rfl, rfl, rfl⟩
      · rw [if_neg ha, if_pos hg]
        exact ⟨.resolveOther, rfl, rfl, rfl⟩
    intro h1
    refine ⟨?_, ?_⟩
    · intro hbig
      unfold clientMain
      rw [if_neg (not_not.mpr h0), if_neg (by rw [h1]; decide), if_neg (not_not.mpr h1), if_pos hbig]
      exact ⟨.addrSize, rfl, rfl, rfl⟩
    intro h2
    refine ⟨?_, ?_⟩
    · intro hport
      unfold clientMain
      rw [if_neg (not_not.mpr h0), if_neg (by rw [h1]; decide), if_neg (not_not.mpr h1), if_neg (Nat.not_lt.mpr h2)]
      by_cases hp1 : inp.portRet ≠ 1
      · rw [if_pos hp1]
        exact ⟨.portParse, rfl, rfl, rfl⟩
      · rw [if_neg hp1]
        by_cases hp2 : inp.port ≤ 0
        · rw [if_pos hp2]
          exact ⟨.portLow, rfl, rfl, rfl⟩
        · have hp3 : inp.port ≥ 65536 := by
            rcases hport with h | h | h
            · exact absurd h hp1
            · exact absurd h hp2
            · exact h
          rw [if_neg hp2, if_pos hp3]
          exact ⟨.portHigh, rfl, rfl, rfl⟩
    intro h3 h4 h5
    refine ⟨?_, ?_⟩
    · intro hpass
      unfold clientMain
      rw [if_neg (not_not.mpr h0), if_neg (by rw [h1]; decide), if_neg (not_not.mpr h1), if_neg (Nat.not_lt.mpr h2), if_neg (not_not.mpr h3), if_neg (not_le.mpr h4), if_neg (not_le.mpr h5)]
      by_cases hp1 : inp.passesRet ≠ 1
      · rw [if_pos hp1]
        exact ⟨.passesParse, rfl, rfl, rfl⟩
      · have hp2 : inp.passes ≤ 0 := by
          rcases hpass with h | h
          · exact absurd h hp1
          · exact h
        rw [if_neg hp1, if_pos hp2]
        exact ⟨.passesLow, rfl, rfl, rfl⟩
    intro h6 h7
    refine ⟨?_, ?_⟩
    · intro hfd
      unfold clientMain
      rw [if_neg (not_not.mpr h0), if_neg (by rw [h1]; decide), if_neg (not_not.mpr h1), if_neg (Nat.not_lt.mpr h2), if_neg (not_not.mpr h3), if_neg (not_le.mpr h4), if_neg (not_le.mpr h5), if_neg (not_not.mpr h6), if_neg (not_le.mpr h7), if_pos hfd]
      exact ⟨.socket, rfl, rfl, rfl⟩
    intro h8
    refine ⟨?_, ?_⟩
    · intro hs
      unfold clientMain
      rw [if_neg (not_not.mpr h0), if_neg (by rw [h1]; decide), if_neg (not_not.mpr h1), if_neg (Nat.not_lt.mpr h2), if_neg (not_not.mpr h3), if_neg (not_le.mpr h4), if_neg (not_le.mpr h5), if_neg (not_not.mpr h6), if_neg (not_le.mpr h7), if_neg h8, if_pos hs]
      exact ⟨.sendServer, rfl, rfl, rfl⟩
    intro h9
    refine ⟨?_, ?_⟩
    · intro hr
      unfold clientMain
      rw [if_neg (not_not.mpr h0), if_neg (by rw [h1]; decide), if_neg (not_not.mpr h1), if_neg (Nat.not_lt.mpr h2), if_neg (not_not.mpr h3), if_neg (not_le.mpr h4), if_neg (not_le.mpr h5), if_neg (not_not.mpr h6), if_neg (not_le.mpr h7), if_neg h8, if_neg (not_lt.mpr h9), if_pos hr]
      exact ⟨.recvServer, rfl, rfl, rfl⟩
    intro h10 hbuf hfd2
    unfold clientMain
    rw [if_neg (not_not.mpr h0), if_neg (by rw [h1]; decide), if_neg (not_not.mpr h1), if_neg (Nat.not_lt.mpr h2), if_neg (not_not.mpr h3), if_neg (not_le.mpr h4), if_neg (not_le.mpr h5), if_neg (not_not.mpr h6), if_neg (not_le.mpr h7), if_neg h8, if_neg (not_lt.mpr h9), if_neg (not_lt.mpr h10)]
    have hsel : (selectRole e (replyBuf inp.reply) (doublePasses inp.passes) inp.junk
        inp.fd2).status = .returned .socketPeer := by
      have hnz : ¬ (load32 e (replyBuf inp.reply).addr = 0 ∧
          load16 e (replyBuf inp.reply).port = 0) := by
        rw [load32_eq_zero, load16_eq_zero]
        intro ⟨z1, z2⟩
        apply hbuf
        cases hb : replyBuf inp.reply
        rw [hb] at z1 z2
        simp only [RegBuf.zero, RegBuf.mk.injEq]
        exact ⟨z1, z2⟩
      simp [selectRole, hnz, hfd2]
    rw [clientLoop_stopped e _ _ (by rw [hsel]; simp)]
    exact ⟨.socketPeer, hsel, rfl, rfl⟩
  · intro hvalid hok hlen
    obtain ⟨⟨hlo, hhi, hfd⟩, -⟩ := clientMain_valid e inp hvalid
    obtain ⟨s1, s2, s3, s4, s5, s6⟩ :=
      selectRole_start e (replyBuf inp.reply) inp.passes inp.junk inp.fd2 hlo hhi hfd
    simp only [clientMain_valid_answers e inp hvalid]
    generalize selectRole e (replyBuf inp.reply) (doublePasses inp.passes) inp.junk inp.fd2
      = c0 at s1 s2 s3 s4 s5 s6 ⊢
    have hbound : c0.iter + pre.length < c0.real_passes := by
      by_cases hz : replyBuf inp.reply = RegBuf.zero
      · obtain ⟨hi, hr⟩ := s5 hz
        omega
      · obtain ⟨hi, hr⟩ := s6 hz
        omega
    obtain ⟨p1, p2, -, p4, p5⟩ := clientLoop_prefix e pre c0 s1 s3 s4 hok hbound
    have hlt : (clientLoop e c0 pre).iter < (clientLoop e c0 pre).real_passes := by
      rw [p2, p4]
      exact hbound
    rw [clientLoop_append_running e pre (k :: rest) c0 p1]
    refine ⟨p1, fun heven => ⟨?_, ?_, ?_⟩, ?_⟩
    · intro hk
      exact ⟨.recvPeer, clientLoop_fails e _ k rest _ p1 hlt
        (loopBody_recv_error e _ k heven hk), rfl, rfl⟩
    · intro data src srclen hk hfit hl
      exact ⟨.sizeMismatch, clientLoop_fails e _ k rest _ p1 hlt
        (loopBody_size_mismatch e _ k data src srclen heven hk hfit hl), rfl, rfl⟩
    · intro data src srclen hk hbig hset
      exact ⟨.addrSpace, clientLoop_fails e _ k rest _ p1 hlt
        (loopBody_addr_space e _ k data src srclen heven hk hbig hset), rfl, rfl⟩
    · intro hodd hs
      have hset : (clientLoop e c0 pre).remote_set = true := by
        rcases p5 with h | h
        · exact h
        · omega
      exact ⟨.sendPeer, clientLoop_fails e _ k rest _ p1 hlt
        (loopBody_send_fail e _ k hodd hset hs), rfl, rfl⟩
  · intro ⟨t1, ht1, hn1, hc1⟩
    have hd1 : t1 ≠ .done := by
      intro h
      rw [h] at hc1
      simp [Site.cls] at hc1
    refine ⟨?_, ?_, ?_⟩
    · rw [← hn1]
      exact (site_codes t1 t1 hd1).1
    · intro ks
      rcases clientMain_cases e inp with ⟨site, -, h⟩ | ⟨buf, h⟩
      · have h0 := h inp.answers
        rw [ClientInput.with_answers] at h0
        rw [h0, h]
      · have h0 := h inp.answers
        rw [ClientInput.with_answers] at h0
        rw [h0] at ht1 ⊢
        rw [h]
        exact clientLoop_append_stopped e _ ks _ (by rw [ht1]; simp)
    · intro ⟨t2, _, hn2, hc2⟩ hn
      have hcode : t1.code = t2.code := by rw [hn1, hn2, hn]
      rcases (site_codes t1 t2 hd1).2 hcode with h | h | ⟨h9, h⟩
      · left
        rw [hc1, hc2] at h
        exact Option.some.inj h
      · rw [h] at hc2
        simp [Site.cls] at hc2
      · right
        refine ⟨by rw [← hn1]; exact h9, ?_⟩
        rw [hc1, hc2] at h
        rcases h with ⟨a1, a2⟩ | ⟨a1, a2⟩
        · exact Or.inl ⟨Option.some.inj a1, Option.some.inj a2⟩
        · exact Or.inr ⟨Option.some.inj a1, Option.some.inj a2⟩

/-- Witness for C10 as amended: a Listener whose first `recvfrom` fails
returns with code 9 in the send/receive class; against a Listener that got a
datagram of three octets (code 9, protocol-size class) the two classes are the
pair that shares code 9. -/
theorem client_exit_codes_witness :
    (clientMain .little
      { ({ argc := 4, gaiRet := 0, ai_addrlen := 16, portRet := 1, port := 9000,
           passesRet := 1, passes := 3, fd := 3, sendret := 6,
           reply := .datagram [0, 0, 0, 0, 0, 0] (SockAddrIn.ofInet 2130706433 9000) 16,
           junk := ⟨0, ⟨7, 7⟩, ⟨9, 9, 9, 9⟩⟩, fd2 := 4,
           answers := [⟨.error, 4⟩] } : ClientInput) with
        answers := [] ++ (⟨.error, 4⟩ : Answer) :: [] }).failed 9 .sendRecv ∧
      (FailClass.sendRecv = FailClass.protocolSize ∨
        (9 = 9 ∧ ((FailClass.sendRecv = .sendRecv ∧ FailClass.protocolSize = .protocolSize) ∨
          (FailClass.sendRecv = .protocolSize ∧ FailClass.protocolSize = .sendRecv)))) :=
  have h := client_exit_codes .little
    { argc := 4, gaiRet := 0, ai_addrlen := 16, portRet := 1, port := 9000,
      passesRet := 1, passes := 3, fd := 3, sendret := 6,
      reply := .datagram [0, 0, 0, 0, 0, 0] (SockAddrIn.ofInet 2130706433 9000) 16,
      junk := ⟨0, ⟨7, 7⟩, ⟨9, 9, 9, 9⟩⟩, fd2 := 4,
      answers := [⟨.error, 4⟩] }
    { argc := 4, gaiRet := 0, ai_addrlen := 16, portRet := 1, port := 9000,
      passesRet := 1, passes := 3, fd := 3, sendret := 6,
      reply := .datagram [0, 0, 0, 0, 0, 0] (SockAddrIn.ofInet 2130706433 9000) 16,
      junk := ⟨0, ⟨7, 7⟩, ⟨9, 9, 9, 9⟩⟩, fd2 := 4,
      answers := [⟨.datagram [0, 0, 1] (SockAddrIn.ofInet 167772162 6000) 16, 4⟩] }
    [] [] ⟨.error, 4⟩ 9 9 .sendRecv .protocolSize
  ⟨((h.2.2.1 (by decide) (by decide) (by decide)).2.1 (by decide)).1 rfl,
    (h.2.2.2 ⟨.recvPeer, by decide, rfl, rfl⟩).2.2 ⟨.sizeMismatch, by decide, rfl, rfl⟩ rfl⟩

/-- Counterexample to C10 as stated: a Listener whose first `recvfrom` fails
(send/receive failure) and a Listener that gets a three-octet datagram
(size mismatch) both exit with code 9. -/
theorem client_exit_code_9_shared :
    (clientMain .little
      { argc := 4, gaiRet := 0, ai_addrlen := 16, portRet := 1, port := 9000, passesRet := 1,
        passes := 3, fd := 3, sendret := 6,
        reply := .datagram [0, 0, 0, 0, 0, 0] (SockAddrIn.ofInet 2130706433 9000) 16,
        junk := ⟨0, ⟨7, 7⟩, ⟨9, 9, 9, 9⟩⟩, fd2 := 4,
        answers := [⟨.error, 4⟩] }).status = .returned .recvPeer ∧
      (clientMain .little
        { argc := 4, gaiRet := 0, ai_addrlen := 16, portRet := 1, port := 9000, passesRet := 1,
          passes := 3, fd := 3, sendret := 6,
          reply := .datagram [0, 0, 0, 0, 0, 0] (SockAddrIn.ofInet 2130706433 9000) 16,
          junk := ⟨0, ⟨7, 7⟩, ⟨9, 9, 9, 9⟩⟩, fd2 := 4,
          answers := [⟨.datagram [0, 0, 1] (SockAddrIn.ofInet 167772162 6000) 16, 4⟩]
        }).status = .returned .sizeMismatch ∧
      Site.recvPeer.code = 9 ∧ Site.sizeMismatch.code = 9 ∧
      Site.recvPeer.cls = some .sendRecv ∧ Site.sizeMismatch.cls = some .protocolSize ∧
      Site.recvPeer.cls ≠ Site.sizeMismatch.cls := by
  decide

/-! ## Two clients against each other -/

theorem load32_wireCounter (i : Nat) (h : i < 2 ^ 32) :
    load32 .big (fill4 (wireCounter i)) = i := by
  rw [wireCounter, fill4_bytes, load32_store32 _ _ h]

theorem counterMessage_eq (e : Endian) (iter : Nat) :
    counterMessage e iter = wireCounter (iter / 2) := by
  rw [counterMessage, encodeCounter, store32_htonl, wireCounter]

theorem listener_recv (eL : Endian) (rp : Nat) (junk addrI : SockAddrIn) (a : Nat)
    (rest : List (List Byte)) (hlt : a < rp) (h32 : rp < 2 ^ 32) (heven : a % 2 = 0) :
    clientMove eL addrI (listenerAt rp junk addrI a .running) (wireCounter (a / 2) :: rest) =
      some (listenerAt rp junk addrI (a + 1) .running, rest, []) := by
  have hround := loopBody_recv eL (listenerAt rp junk addrI a .running) (wireCounter (a / 2))
    addrI sizeofSockAddrIn 4 heven rfl (Or.inr (le_refl _))
  have e1 : (a + 1) / 2 = a / 2 := by omega
  have e2 : (a + 1 + 1) / 2 = a / 2 + 1 := by omega
  have e3 : (a + 1) % 2 ^ 32 = a + 1 := Nat.mod_eq_of_lt (by omega)
  have e4 := load32_wireCounter (a / 2) (by omega)
  have hst : (listenerAt rp junk addrI a .running).status = .running := rfl
  have hit : (listenerAt rp junk addrI a .running).iter = a := rfl
  have hrp : (listenerAt rp junk addrI a .running).real_passes = rp := rfl
  simp only [clientMove, loopTest, hst, hit, hrp, hlt, if_true, heven]
  rw [hround, e4]
  by_cases h0 : a = 0
  · subst h0
    simp [listenerAt, List.range_succ]
  · simp [listenerAt, e1, e2, h0, List.range_succ]
    omega

theorem listener_blocked (eL : Endian) (rp : Nat) (junk addrI : SockAddrIn) (a : Nat)
    (hlt : a < rp) (heven : a % 2 = 0) :
    clientMove eL addrI (listenerAt rp junk addrI a .running) [] = none := by
  have hst : (listenerAt rp junk addrI a .running).status = .running := rfl
  have hit : (listenerAt rp junk addrI a .running).iter = a := rfl
  have hrp : (listenerAt rp junk addrI a .running).real_passes = rp := rfl
  simp only [clientMove, loopTest, hst, hit, hrp, hlt, if_true, heven]

theorem listener_send (eL : Endian) (rp : Nat) (junk addrI : SockAddrIn) (a : Nat)
    (inbox : List (List Byte)) (hlt : a < rp) (h32 : rp < 2 ^ 32) (hodd : a % 2 = 1) :
    clientMove eL addrI (listenerAt rp junk addrI a .running) inbox =
      some (listenerAt rp junk addrI (a + 1) .running, inbox, [wireCounter (a / 2)]) := by
  have h0 : a ≠ 0 := by omega
  have hround := loopBody_send eL (listenerAt rp junk addrI a .running) ⟨.error, 4⟩ hodd
    (by simp [listenerAt, h0]) (by decide)
  have e1 : (a + 1) / 2 = a / 2 + 1 := by omega
  have e2 : (a + 1 + 1) / 2 = a / 2 + 1 := by omega
  have hst : (listenerAt rp junk addrI a .running).status = .running := rfl
  have hit : (listenerAt rp junk addrI a .running).iter = a := rfl
  have hrp : (listenerAt rp junk addrI a .running).real_passes = rp := rfl
  have hne : ¬ (a % 2 = 0) := by omega
  simp only [clientMove, loopTest, hst, hit, hrp, hlt, if_true, hne, if_false]
  rw [hround, counterMessage_eq]
  simp [listenerAt, e1, e2, h0, List.range_succ, delivered]
  omega

theorem listener_exit (eL : Endian) (rp : Nat) (junk addrI : SockAddrIn)
    (inbox : List (List Byte)) :
    clientMove eL addrI (listenerAt rp junk addrI rp .running) inbox =
      some (listenerAt rp junk addrI rp (.returned .done), inbox, []) := by
  have hst : (listenerAt rp junk addrI rp .running).status = .running := rfl
  have hit : (listenerAt rp junk addrI rp .running).iter = rp := rfl
  have hrp : (listenerAt rp junk addrI rp .running).real_passes = rp := rfl
  simp only [clientMove, loopTest, hst, hit, hrp, lt_irrefl, if_false]
  rfl

theorem listener_returned (eL : Endian) (rp : Nat) (junk addrI : SockAddrIn) (a : Nat)
    (inbox : List (List Byte)) :
    clientMove eL addrI (listenerAt rp junk addrI a (.returned .done)) inbox = none := rfl

theorem initiator_recv (eI : Endian) (rp : Nat) (peer addrL : SockAddrIn) (b : Nat)
    (rest : List (List Byte)) (hb : 1 ≤ b) (hlt : b < rp + 1) (h32 : rp + 1 < 2 ^ 32)
    (heven : b % 2 = 0) :
    clientMove eI addrL (initiatorAt rp peer b .running) (wireCounter ((b - 1) / 2) :: rest) =
      some (initiatorAt rp peer (b + 1) .running, rest, []) := by
  have hround := loopBody_recv eI (initiatorAt rp peer b .running) (wireCounter ((b - 1) / 2))
    addrL sizeofSockAddrIn 4 heven rfl (Or.inl rfl)
  have e1 : (b + 1) / 2 = b / 2 := by omega
  have e4 := load32_wireCounter ((b - 1) / 2) (by omega)
  have hst : (initiatorAt rp peer b .running).status = .running := rfl
  have hit : (initiatorAt rp peer b .running).iter = b := rfl
  have hrp : (initiatorAt rp peer b .running).real_passes = rp + 1 := rfl
  simp only [clientMove, loopTest, hst, hit, hrp, hlt, if_true, heven]
  rw [hround, e4]
  have e2 : b / 2 = (b - 1) / 2 + 1 := by omega
  have e3 : b - 1 + 1 = b := by omega
  simp [initiatorAt, e1, e2, e3, List.range_succ]
  omega

theorem initiator_blocked (eI : Endian) (rp : Nat) (peer addrL : SockAddrIn) (b : Nat)
    (hlt : b < rp + 1) (heven : b % 2 = 0) :
    clientMove eI addrL (initiatorAt rp peer b .running) [] = none := by
  have hst : (initiatorAt rp peer b .running).status = .running := rfl
  have hit : (initiatorAt rp peer b .running).iter = b := rfl
  have hrp : (initiatorAt rp peer b .running).real_passes = rp + 1 := rfl
  simp only [clientMove, loopTest, hst, hit, hrp, hlt, if_true, heven]

theorem initiator_send (eI : Endian) (rp : Nat) (peer addrL : SockAddrIn) (b : Nat)
    (inbox : List (List Byte)) (hlt : b < rp + 1) (h32 : rp + 1 < 2 ^ 32) (hodd : b % 2 = 1)
    (ha : peer.sin_addr = addrL.sin_addr) (hp : peer.sin_port = addrL.sin_port) :
    clientMove eI addrL (initiatorAt rp peer b .running) inbox =
      some (initiatorAt rp peer (b + 1) .running, inbox, [wireCounter (b / 2)]) := by
  have hround := loopBody_send eI (initiatorAt rp peer b .running) ⟨.error, 4⟩ hodd rfl
    (by decide)
  have e1 : (b + 1) / 2 = b / 2 + 1 := by omega
  have e2 : (b - 1) / 2 = b / 2 := by omega
  have e3 : b - 1 + 1 = b := by omega
  have hst : (initiatorAt rp peer b .running).status = .running := rfl
  have hit : (initiatorAt rp peer b .running).iter = b := rfl
  have hrp : (initiatorAt rp peer b .running).real_passes = rp + 1 := rfl
  have hne : ¬ (b % 2 = 0) := by omega
  simp only [clientMove, loopTest, hst, hit, hrp, hlt, if_true, hne, if_false]
  rw [hround, counterMessage_eq]
  simp [initiatorAt, e1, e2, e3, List.range_succ, delivered, ha, hp]
  omega

theorem initiator_exit (eI : Endian) (rp : Nat) (peer addrL : SockAddrIn)
    (inbox : List (List Byte)) :
    clientMove eI addrL (initiatorAt rp peer (rp + 1) .running) inbox =
      some (initiatorAt rp peer (rp + 1) (.returned .done), inbox, []) := by
  have hst : (initiatorAt rp peer (rp + 1) .running).status = .running := rfl
  have hit : (initiatorAt rp peer (rp + 1) .running).iter = rp + 1 := rfl
  have hrp : (initiatorAt rp peer (rp + 1) .running).real_passes = rp + 1 := rfl
  simp only [clientMove, loopTest, hst, hit, hrp, lt_irrefl, if_false]
  rfl

theorem initiator_returned (eI : Endian) (rp : Nat) (peer addrL : SockAddrIn) (b : Nat)
    (inbox : List (List Byte)) :
    clientMove eI addrL (initiatorAt rp peer b (.returned .done)) inbox = none := rfl

theorem moveListener_exit (eL : Endian) (rp : Nat) (junk addrI peer : SockAddrIn)
    (x : Progress) (hr : x.runL = true) (ha : x.a = rp) :
    moveListener eL addrI (pairAt rp junk addrI peer x) =
      some (pairAt rp junk addrI peer { x with runL := false }) := by
  obtain ⟨a, runL, b, runI⟩ := x
  simp only at hr ha
  subst hr ha
  simp only [moveListener, pairAt, statusOf, if_true, listener_exit, List.append_nil]
  rfl

theorem moveListener_send (eL : Endian) (rp : Nat) (junk addrI peer : SockAddrIn)
    (x : Progress) (hc : x.Consistent rp) (h32 : rp < 2 ^ 32) (hr : x.runL = true)
    (ha : x.a < rp) (hodd : x.a % 2 = 1) :
    moveListener eL addrI (pairAt rp junk addrI peer x) =
      some (pairAt rp junk addrI peer { x with a := x.a + 1 }) := by
  obtain ⟨a, runL, b, runI⟩ := x
  obtain ⟨-, -, -, -, h5, -, -⟩ := hc
  simp only at hr ha hodd h5
  subst hr
  have e1 : (a + 1 + 1) / 2 = (a + 1) / 2 := by omega
  have e2 : (a + 1) / 2 - (b - 1) / 2 = (a / 2 - (b - 1) / 2) + 1 := by omega
  have e3 : (b - 1) / 2 + 1 * (a / 2 - (b - 1) / 2) = a / 2 := by omega
  simp only [moveListener, pairAt, statusOf, if_true,
    listener_send eL rp junk addrI a _ ha h32 hodd, e1, e2, List.range'_concat, e3,
    List.map_append, List.map_cons, List.map_nil]

theorem moveListener_recv (eL : Endian) (rp : Nat) (junk addrI peer : SockAddrIn)
    (x : Progress) (h32 : rp < 2 ^ 32) (hr : x.runL = true)
    (ha : x.a < rp) (heven : x.a % 2 = 0) (hq : (x.a + 1) / 2 < x.b / 2) :
    moveListener eL addrI (pairAt rp junk addrI peer x) =
      some (pairAt rp junk addrI peer { x with a := x.a + 1 }) := by
  obtain ⟨a, runL, b, runI⟩ := x
  simp only at hr ha heven hq
  subst hr
  have e1 : (a + 1 + 1) / 2 = (a + 1) / 2 + 1 := by omega
  have e2 : b / 2 - (a + 1) / 2 = (b / 2 - ((a + 1) / 2 + 1)) + 1 := by omega
  have e3 : (a + 1) / 2 = a / 2 := by omega
  simp only [moveListener, pairAt, statusOf, if_true]
  rw [e2, List.range'_succ, List.map_cons, e3,
    listener_recv eL rp junk addrI a _ ha h32 heven]
  simp only [e1, e3, List.append_nil]

theorem moveListener_none (eL : Endian) (rp : Nat) (junk addrI peer : SockAddrIn)
    (x : Progress) (hc : x.Consistent rp)
    (h : ¬ (x.runL = true ∧ (x.a = rp ∨ x.a % 2 = 1 ∨ (x.a + 1) / 2 < x.b / 2))) :
    moveListener eL addrI (pairAt rp junk addrI peer x) = none := by
  obtain ⟨a, runL, b, runI⟩ := x
  obtain ⟨h1, -, -, h4, -, -, -⟩ := hc
  simp only at h h1 h4
  cases runL with
  | false => rfl
  | true =>
    have h0 : ¬ (a = rp ∨ a % 2 = 1 ∨ (a + 1) / 2 < b / 2) := fun hh => h ⟨rfl, hh⟩
    have ha : a < rp := by omega
    have heven : a % 2 = 0 := by omega
    have hq : b / 2 - (a + 1) / 2 = 0 := by omega
    simp only [moveListener, pairAt, statusOf, if_true, hq, List.range'_zero, List.map_nil,
      listener_blocked eL rp junk addrI a ha heven]

theorem moveInitiator_exit (eI : Endian) (rp : Nat) (junk addrI peer addrL : SockAddrIn)
    (x : Progress) (hr : x.runI = true) (hb : x.b = rp + 1) :
    moveInitiator eI addrL (pairAt rp junk addrI peer x) =
      some (pairAt rp junk addrI peer { x with runI := false }) := by
  obtain ⟨a, runL, b, runI⟩ := x
  simp only at hr hb
  subst hr hb
  simp only [moveInitiator, pairAt, statusOf, if_true, initiator_exit, List.append_nil]
  rfl

theorem moveInitiator_send (eI : Endian) (rp : Nat) (junk addrI peer addrL : SockAddrIn)
    (x : Progress) (hc : x.Consistent rp) (h32 : rp + 1 < 2 ^ 32) (hr : x.runI = true)
    (hb : x.b < rp + 1) (hodd : x.b % 2 = 1)
    (ha : peer.sin_addr = addrL.sin_addr) (hp : peer.sin_port = addrL.sin_port) :
    moveInitiator eI addrL (pairAt rp junk addrI peer x) =
      some (pairAt rp junk addrI peer { x with b := x.b + 1 }) := by
  obtain ⟨a, runL, b, runI⟩ := x
  obtain ⟨-, -, -, h4, -, -, -⟩ := hc
  simp only at hr hb hodd h4
  subst hr
  have e1 : (b + 1 - 1) / 2 = (b - 1) / 2 := by omega
  have e2 : (b + 1) / 2 - (a + 1) / 2 = (b / 2 - (a + 1) / 2) + 1 := by omega
  have e3 : (a + 1) / 2 + 1 * (b / 2 - (a + 1) / 2) = b / 2 := by omega
  simp only [moveInitiator, pairAt, statusOf, if_true,
    initiator_send eI rp peer addrL b _ hb h32 hodd ha hp, e1, e2, List.range'_concat, e3,
    List.map_append, List.map_cons, List.map_nil]

theorem moveInitiator_recv (eI : Endian) (rp : Nat) (junk addrI peer addrL : SockAddrIn)
    (x : Progress) (hc : x.Consistent rp) (h32 : rp + 1 < 2 ^ 32) (hr : x.runI = true)
    (hb : x.b < rp + 1) (heven : x.b % 2 = 0) (hq : (x.b - 1) / 2 < x.a / 2) :
    moveInitiator eI addrL (pairAt rp junk addrI peer x) =
      some (pairAt rp junk addrI peer { x with b := x.b + 1 }) := by
  obtain ⟨a, runL, b, runI⟩ := x
  obtain ⟨-, h2, -, -, -, -, -⟩ := hc
  simp only at hr hb heven hq h2
  subst hr
  have e1 : (b + 1 - 1) / 2 = (b - 1) / 2 + 1 := by omega
  have e2 : a / 2 - (b - 1) / 2 = (a / 2 - ((b - 1) / 2 + 1)) + 1 := by omega
  have e3 : (b + 1) / 2 = b / 2 := by omega
  simp only [moveInitiator, pairAt, statusOf, if_true]
  rw [e2, List.range'_succ, List.map_cons,
    initiator_recv eI rp peer addrL b _ h2 hb h32 heven]
  simp only [e1, e3, List.append_nil]

theorem moveInitiator_none (eI : Endian) (rp : Nat) (junk addrI peer addrL : SockAddrIn)
    (x : Progress) (hc : x.Consistent rp)
    (h : ¬ (x.runI = true ∧ (x.b = rp + 1 ∨ x.b % 2 = 1 ∨ (x.b - 1) / 2 < x.a / 2))) :
    moveInitiator eI addrL (pairAt rp junk addrI peer x) = none := by
  obtain ⟨a, runL, b, runI⟩ := x
  obtain ⟨-, -, h3, -, h5, -, -⟩ := hc
  simp only at h h3 h5
  cases runI with
  | false => rfl
  | true =>
    have h0 : ¬ (b = rp + 1 ∨ b % 2 = 1 ∨ (b - 1) / 2 < a / 2) := fun hh => h ⟨rfl, hh⟩
    have hb : b < rp + 1 := by omega
    have heven : b % 2 = 0 := by omega
    have hq : a / 2 - (b - 1) / 2 = 0 := by omega
    simp only [moveInitiator, pairAt, statusOf, if_true, hq, List.range'_zero, List.map_nil,
      initiator_blocked eI rp peer addrL b hb heven]

theorem moveListener_some (eL : Endian) (rp : Nat) (junk addrI peer : SockAddrIn)
    (x : Progress) (hc : x.Consistent rp) (h32 : rp < 2 ^ 32) (hr : x.runL = true)
    (h : x.a = rp ∨ x.a % 2 = 1 ∨ (x.a + 1) / 2 < x.b / 2) :
    ∃ y, moveListener eL addrI (pairAt rp junk addrI peer x) =
        some (pairAt rp junk addrI peer y) ∧ y.Consistent rp ∧ y.left rp + 1 = x.left rp := by
  have hc0 := hc
  obtain ⟨h1, h2, h3, h4, h5, h6, h7⟩ := hc
  by_cases ha : x.a = rp
  · refine ⟨_, moveListener_exit eL rp junk addrI peer x hr ha, ?_, ?_⟩
    · exact ⟨h1, h2, h3, h4, h5, fun _ => ha, h7⟩
    · cases hI : x.runI <;> simp [Progress.left, hr, hI]
  · have hlt : x.a < rp := by omega
    by_cases hodd : x.a % 2 = 1
    · refine ⟨_, moveListener_send eL rp junk addrI peer x hc0 h32 hr hlt hodd, ?_, ?_⟩
      · refine ⟨by show x.a + 1 ≤ rp; omega, h2, h3, by show (x.a + 1 + 1) / 2 ≤ x.b / 2; omega,
          by show (x.b - 1) / 2 ≤ (x.a + 1) / 2; omega, fun hf => ?_, h7⟩
        rw [hr] at hf
        exact absurd hf (by decide)
      · show (rp - (x.a + 1)) + (rp + 1 - x.b) + (if x.runL then 1 else 0) +
          (if x.runI then 1 else 0) + 1 = x.left rp
        simp only [Progress.left]
        omega
    · have hq : (x.a + 1) / 2 < x.b / 2 := by omega
      refine ⟨_, moveListener_recv eL rp junk addrI peer x h32 hr hlt (by omega) hq, ?_, ?_⟩
      · refine ⟨by show x.a + 1 ≤ rp; omega, h2, h3, by show (x.a + 1 + 1) / 2 ≤ x.b / 2; omega,
          by show (x.b - 1) / 2 ≤ (x.a + 1) / 2; omega, fun hf => ?_, h7⟩
        rw [hr] at hf
        exact absurd hf (by decide)
      · show (rp - (x.a + 1)) + (rp + 1 - x.b) + (if x.runL then 1 else 0) +
          (if x.runI then 1 else 0) + 1 = x.left rp
        simp only [Progress.left]
        omega

theorem moveInitiator_some (eI : Endian) (rp : Nat) (junk addrI peer addrL : SockAddrIn)
    (x : Progress) (hc : x.Consistent rp) (h32 : rp + 1 < 2 ^ 32) (hr : x.runI = true)
    (ha : peer.sin_addr = addrL.sin_addr) (hp : peer.sin_port = addrL.sin_port)
    (h : x.b = rp + 1 ∨ x.b % 2 = 1 ∨ (x.b - 1) / 2 < x.a / 2) :
    ∃ y, moveInitiator eI addrL (pairAt rp junk addrI peer x) =
        some (pairAt rp junk addrI peer y) ∧ y.Consistent rp ∧ y.left rp + 1 = x.left rp := by
  have hc0 := hc
  obtain ⟨h1, h2, h3, h4, h5, h6, h7⟩ := hc
  by_cases hb : x.b = rp + 1
  · refine ⟨_, moveInitiator_exit eI rp junk addrI peer addrL x hr hb, ?_, ?_⟩
    · exact ⟨h1, h2, h3, h4, h5, h6, fun _ => hb⟩
    · cases hL : x.runL <;> simp [Progress.left, hr, hL]
  · have hlt : x.b < rp + 1 := by omega
    by_cases hodd : x.b % 2 = 1
    · refine ⟨_, moveInitiator_send eI rp junk addrI peer addrL x hc0 h32 hr hlt hodd ha hp,
        ?_, ?_⟩
      · refine ⟨h1, by show 1 ≤ x.b + 1; omega, by show x.b + 1 ≤ rp + 1; omega,
          by show (x.a + 1) / 2 ≤ (x.b + 1) / 2; omega,
          by show (x.b + 1 - 1) / 2 ≤ x.a / 2; omega, h6, fun hf => ?_⟩
        rw [hr] at hf
        exact absurd hf (by decide)
      · show (rp - x.a) + (rp + 1 - (x.b + 1)) + (if x.runL then 1 else 0) +
          (if x.runI then 1 else 0) + 1 = x.left rp
        simp only [Progress.left]
        omega
    · have hq : (x.b - 1) / 2 < x.a / 2 := by omega
      refine ⟨_, moveInitiator_recv eI rp junk addrI peer addrL x hc0 h32 hr hlt (by omega) hq,
        ?_, ?_⟩
      · refine ⟨h1, by show 1 ≤ x.b + 1; omega, by show x.b + 1 ≤ rp + 1; omega,
          by show (x.a + 1) / 2 ≤ (x.b + 1) / 2; omega,
          by show (x.b + 1 - 1) / 2 ≤ x.a / 2; omega, h6, fun hf => ?_⟩
        rw [hr] at hf
        exact absurd hf (by decide)
      · show (rp - x.a) + (rp + 1 - (x.b + 1)) + (if x.runL then 1 else 0) +
          (if x.runI then 1 else 0) + 1 = x.left rp
        simp only [Progress.left]
        omega

theorem no_deadlock (rp : Nat) (x : Progress) (hc : x.Consistent rp) (hrp : rp % 2 = 0)
    (hL : ¬ (x.runL = true ∧ (x.a = rp ∨ x.a % 2 = 1 ∨ (x.a + 1) / 2 < x.b / 2)))
    (hI : ¬ (x.runI = true ∧ (x.b = rp + 1 ∨ x.b % 2 = 1 ∨ (x.b - 1) / 2 < x.a / 2))) :
    x.left rp = 0 := by
  obtain ⟨a, runL, b, runI⟩ := x
  obtain ⟨h1, h2, h3, h4, h5, h6, h7⟩ := hc
  simp only at hL hI h1 h2 h3 h4 h5 h6 h7
  simp only [Progress.left]
  cases runL <;> cases runI <;> simp only [true_and, false_and, not_false_eq_true,
    forall_true_left, Bool.false_eq_true, if_false, if_true, IsEmpty.forall_iff] at * <;> omega

theorem pairStep_at (eL eI : Endian) (rp : Nat) (junk addrI peer addrL : SockAddrIn)
    (pref : Bool) (x : Progress) (hc : x.Consistent rp) (hrp : rp % 2 = 0)
    (h32 : rp + 1 < 2 ^ 32)
    (ha : peer.sin_addr = addrL.sin_addr) (hp : peer.sin_port = addrL.sin_port) :
    ∃ y, pairStep eL eI addrL addrI pref (pairAt rp junk addrI peer x) =
        pairAt rp junk addrI peer y ∧ y.Consistent rp ∧ y.left rp = x.left rp - 1 := by
  by_cases hL : x.runL = true ∧ (x.a = rp ∨ x.a % 2 = 1 ∨ (x.a + 1) / 2 < x.b / 2)
  · obtain ⟨y, hy, hyc, hyl⟩ :=
      moveListener_some eL rp junk addrI peer x hc (by omega) hL.1 hL.2
    by_cases hI : x.runI = true ∧ (x.b = rp + 1 ∨ x.b % 2 = 1 ∨ (x.b - 1) / 2 < x.a / 2)
    · obtain ⟨z, hz, hzc, hzl⟩ :=
        moveInitiator_some eI rp junk addrI peer addrL x hc h32 hI.1 ha hp hI.2
      cases pref
      · exact ⟨z, by simp only [pairStep, hy, hz], hzc, by omega⟩
      · exact ⟨y, by simp only [pairStep, hy, hz], hyc, by omega⟩
    · have hz := moveInitiator_none eI rp junk addrI peer addrL x hc hI
      cases pref
      · exact ⟨y, by simp only [pairStep, hy, hz], hyc, by omega⟩
      · exact ⟨y, by simp only [pairStep, hy, hz], hyc, by omega⟩
  · have hy := moveListener_none eL rp junk addrI peer x hc hL
    by_cases hI : x.runI = true ∧ (x.b = rp + 1 ∨ x.b % 2 = 1 ∨ (x.b - 1) / 2 < x.a / 2)
    · obtain ⟨z, hz, hzc, hzl⟩ :=
        moveInitiator_some eI rp junk addrI peer addrL x hc h32 hI.1 ha hp hI.2
      cases pref
      · exact ⟨z, by simp only [pairStep, hy, hz], hzc, by omega⟩
      · exact ⟨z, by simp only [pairStep, hy, hz], hzc, by omega⟩
    · have hz := moveInitiator_none eI rp junk addrI peer addrL x hc hI
      have h0 := no_deadlock rp x hc hrp hL hI
      cases pref
      · exact ⟨x, by simp only [pairStep, hy, hz], hc, by omega⟩
      · exact ⟨x, by simp only [pairStep, hy, hz], hc, by omega⟩

theorem pairRun_at (eL eI : Endian) (rp : Nat) (junk addrI peer addrL : SockAddrIn)
    (hrp : rp % 2 = 0) (h32 : rp + 1 < 2 ^ 32)
    (ha : peer.sin_addr = addrL.sin_addr) (hp : peer.sin_port = addrL.sin_port)
    (sched : List Bool) :
    ∀ x : Progress, x.Consistent rp →
      ∃ y, pairRun eL eI addrL addrI sched (pairAt rp junk addrI peer x) =
        pairAt rp junk addrI peer y ∧ y.Consistent rp ∧
        y.left rp = x.left rp - sched.length := by
  induction sched with
  | nil =>
    intro x hc
    exact ⟨x, rfl, hc, by simp⟩
  | cons pref rest ih =>
    intro x hc
    obtain ⟨y, hy, hyc, hyl⟩ :=
      pairStep_at eL eI rp junk addrI peer addrL pref x hc hrp h32 ha hp
    obtain ⟨z, hz, hzc, hzl⟩ := ih y hyc
    refine ⟨z, ?_, hzc, ?_⟩
    · simp only [pairRun, hy, hz]
    · simp only [List.length_cons]
      omega

theorem pairInit_at (eL eI : Endian) (addrL addrI junkL junkI : SockAddrIn) (fd2 : Int)
    (N : Nat) (hlo : 1 ≤ N) (hhi : N < 2 ^ 31) (hfd : fd2 ≠ -1)
    (haddr : RegBuf.mk addrL.sin_addr addrL.sin_port ≠ RegBuf.zero) :
    pairInit eL eI addrL junkL junkI fd2 N =
      pairAt (2 * N) junkL addrI ⟨AF_INET, addrL.sin_port, addrL.sin_addr⟩
        ⟨0, true, 1, true⟩ := by
  obtain ⟨hd, hd1⟩ := doublePasses_exact (N : Int) (by omega) (by omega)
  have hd2 : doublePasses (N : Int) = 2 * N := by omega
  have hz : fill6 sentinel = RegBuf.zero := rfl
  simp only [pairInit, hz, fill6_bytes, selectRole_listener,
    selectRole_initiator eI _ _ junkI fd2 haddr hfd, hd2, Nat.mod_eq_of_lt (hd2 ▸ hd1)]
  rfl

theorem getLast?_range (N : Nat) (hlo : 1 ≤ N) : (List.range N).getLast? = some (N - 1) := by
  obtain ⟨m, rfl⟩ : ∃ m, N = m + 1 := ⟨N - 1, by omega⟩
  simp [List.range_succ]

/-- C2: a Listener and an Initiator started with the same `passes = N`
(`N ≥ 1`, a C `int`) run against each other over a lossless in-order channel
under any schedule, with no I/O failure. After `4 * N + 2` steps both have
returned 0; the Initiator has sent exactly the `N` counter messages carrying
`0, 1, ..., N-1` in that order, all to the Listener's endpoint; the Listener
has printed exactly `0, 1, ..., N-1` in that order, and so has the Initiator;
the last round value of both is `N - 1`; nothing is left in flight. -/
theorem pair_exchange (eL eI : Endian) (addrL addrI junkL junkI : SockAddrIn) (fd2 : Int)
    (N : Nat) (sched : List Bool) (p : Pair)
    (hlo : 1 ≤ N) (hhi : N < 2 ^ 31) (hfd : fd2 ≠ -1)
    (haddr : RegBuf.mk addrL.sin_addr addrL.sin_port ≠ RegBuf.zero)
    (hsched : 4 * N + 2 ≤ sched.length)
    (hp : p = pairRun eL eI addrL addrI sched (pairInit eL eI addrL junkL junkI fd2 N)) :
    p.initiator.status = .returned .done ∧ p.listener.status = .returned .done ∧
      p.initiator.sent.map Datagram.payload = (List.range N).map wireCounter ∧
      (∀ i, i < N → counterMessage eI (2 * i + 1) = wireCounter i) ∧
      (∀ d ∈ p.initiator.sent,
        d.dest.sin_addr = addrL.sin_addr ∧ d.dest.sin_port = addrL.sin_port) ∧
      p.listener.printed = List.range N ∧ p.initiator.printed = List.range N ∧
      p.listener.sent.map Datagram.payload = (List.range N).map wireCounter ∧
      p.listener.printed.getLast? = some (N - 1) ∧
      p.initiator.printed.getLast? = some (N - 1) ∧
      p.toListener = [] ∧ p.toInitiator = [] := by
  have hinit := pairInit_at eL eI addrL addrI junkL junkI fd2 N hlo hhi hfd haddr
  have hc : Progress.Consistent (2 * N) ⟨0, true, 1, true⟩ := by
    refine ⟨?_, ?_, ?_, ?_, ?_, ?_, ?_⟩ <;> simp
  obtain ⟨y, hy, hyc, hyl⟩ := pairRun_at eL eI (2 * N) junkL addrI
    ⟨AF_INET, addrL.sin_port, addrL.sin_addr⟩ addrL (by omega) (by omega) rfl rfl sched
    ⟨0, true, 1, true⟩ hc
  rw [hinit, hy] at hp
  have hl0 : Progress.left (2 * N) ⟨0, true, 1, true⟩ = 4 * N + 2 := by
    simp only [Progress.left, if_true]
    omega
  rw [hl0] at hyl
  have hyl0 : y.left (2 * N) = 0 := by omega
  obtain ⟨a, runL, b, runI⟩ := y
  obtain ⟨h1, h2, h3, h4, h5, h6, h7⟩ := hyc
  simp only at h1 h2 h3 h4 h5 h6 h7
  simp only [Progress.left] at hyl0
  have hrL : runL = false := by
    cases runL
    · rfl
    · simp at hyl0
  have hrI : runI = false := by
    cases runI
    · rfl
    · simp at hyl0
  have ha : a = 2 * N := h6 hrL
  have hb : b = 2 * N + 1 := h7 hrI
  subst hrL hrI ha hb hp
  have e1 : (2 * N + 1) / 2 = N := by omega
  have e2 : (2 * N + 1 - 1) / 2 = N := by omega
  have e3 : 2 * N / 2 = N := by omega
  refine ⟨rfl, rfl, ?_, ?_, ?_, ?_, ?_, ?_, ?_, ?_, ?_, ?_⟩
  · simp [pairAt, initiatorAt, e1]
  · intro i _
    rw [counterMessage_eq]
    congr 1
    omega
  · intro d hd
    simp only [pairAt, initiatorAt, List.mem_map] at hd
    obtain ⟨i, -, rfl⟩ := hd
    exact ⟨rfl, rfl⟩
  · simp [pairAt, listenerAt, e1]
  · simp [pairAt, initiatorAt, e2]
  · simp [pairAt, listenerAt, e3]
  · simp [pairAt, listenerAt, e1, getLast?_range N hlo]
  · simp [pairAt, initiatorAt, e2, getLast?_range N hlo]
  · simp [pairAt, e1]
  · simp [pairAt, e2, e3]

/-- Witness for C2: `passes = 1`, a little-endian Listener at `10.0.0.1:5000`
and a big-endian Initiator at `10.0.0.2:6000`, the scheduler always preferring
the Listener. -/
theorem pair_exchange_witness :
    (pairRun .little .big (SockAddrIn.ofInet 167772161 5000) (SockAddrIn.ofInet 167772162 6000)
        [true, true, true, true, true, true]
        (pairInit .little .big (SockAddrIn.ofInet 167772161 5000) ⟨0, ⟨7, 7⟩, ⟨9, 9, 9, 9⟩⟩
          ⟨0, ⟨7, 7⟩, ⟨9, 9, 9, 9⟩⟩ 4 (1 : Nat))).listener.printed = List.range 1 ∧
      (pairRun .little .big (SockAddrIn.ofInet 167772161 5000)
        (SockAddrIn.ofInet 167772162 6000) [true, true, true, true, true, true]
        (pairInit .little .big (SockAddrIn.ofInet 167772161 5000) ⟨0, ⟨7, 7⟩, ⟨9, 9, 9, 9⟩⟩
          ⟨0, ⟨7, 7⟩, ⟨9, 9, 9, 9⟩⟩ 4 (1 : Nat))).initiator.printed.getLast? =
        some (1 - 1) :=
  have h := pair_exchange .little .big (SockAddrIn.ofInet 167772161 5000)
    (SockAddrIn.ofInet 167772162 6000) ⟨0, ⟨7, 7⟩, ⟨9, 9, 9, 9⟩⟩ ⟨0, ⟨7, 7⟩, ⟨9, 9, 9, 9⟩⟩ 4 1
    [true, true, true, true, true, true] _ (by decide) (by decide) (by decide) (by decide)
    (by decide) rfl
  ⟨h.2.2.2.2.2.1, h.2.2.2.2.2.2.2.2.2.1⟩

end HolePunch
